import Mathlib

/-!
# DOME engine canvas: pixel compositing and rasterisation (`src/engine.c`)

A shallow embedding of the drawing core of `engine.c`.

* The canvas part of the C struct `ENGINE` is the record `ENGINE` below:
  `width` and `height` are the `uint32_t` fields, `pixels` is the buffer of
  packed 32-bit cells, row-major.
* `uint8_t`, `uint16_t`, `uint32_t` values are naturals, reduced explicitly
  (`toU8`, `toU16`, `toU32`) wherever the C code stores into such a type.
* `int64_t` coordinates are mathematical integers.  Signed overflow is
  undefined in C, so the embedding describes exactly the executions in which
  no `int64_t` computation overflows.
* Double-precision arithmetic is not embedded.  The decision value of the
  circle routines is a parameter (`CircleDecision`); the decision parameters
  and the region test of the ellipse routines are evaluated exactly, as
  integers (`ellipse_decision1_eq`, `ellipse_getRegion_lt_one_iff`).
* The font table `font8x8_basic` is a parameter of `ENGINE_print`.
* A drawing routine `f` is embedded as a function on the engine, written after
  the C code; next to it `f_calls` is the list of cells it passes to
  `ENGINE_pset`, in order, and `f_eq_plot` shows that `f` is the run of those
  calls (`plot`).
* A `while` loop takes a bound on its iterations as first argument; the bound
  handed to it is the number of iterations the guard allows, and the `_fuel`
  lemmas show that the loop ends by its guard, not by the bound.
-/

namespace Dome

/-! ## Definitions -/

/-- The canvas fields of the C struct `ENGINE`. -/
structure ENGINE where
  width : Nat
  height : Nat
  pixels : List Nat
deriving DecidableEq, Repr

/-- Store into a `uint8_t`. -/
def toU8 (n : Nat) : Nat := n % 2 ^ 8

/-- Store into a `uint16_t`. -/
def toU16 (n : Nat) : Nat := n % 2 ^ 16

/-- Store into a `uint32_t`. -/
def toU32 (n : Nat) : Nat := n % 2 ^ 32

/-- Conversion `uint32_t -> int32_t` as done by `int32_t width = engine->width;`
(two's complement). -/
def toI32 (n : Nat) : Int :=
  if n % 2 ^ 32 < 2 ^ 31 then ((n % 2 ^ 32 : Nat) : Int)
  else ((n % 2 ^ 32 : Nat) : Int) - 2 ^ 32

/-- The canvas invariant: both dimensions fit an `int32_t` and the buffer has
`width * height` cells. -/
def ENGINE.wellFormed (e : ENGINE) : Prop :=
  e.width < 2 ^ 31 ∧ e.height < 2 ^ 31 ∧ e.pixels.length = e.width * e.height

instance (e : ENGINE) : Decidable e.wellFormed := by
  unfold ENGINE.wellFormed; infer_instance

/-- The alpha byte of a packed colour, `(c & (0xFF << 24)) >> 24`. -/
def alphaOf (c : Nat) : Nat := (c &&& (0xFF <<< 24)) >>> 24

/-- The red byte of a packed colour, `(0x00FF0000 & c) >> 16`. -/
def redOf (c : Nat) : Nat := (0x00FF0000 &&& c) >>> 16

/-- The green byte of a packed colour, `(0x0000FF00 & c) >> 8`. -/
def greenOf (c : Nat) : Nat := (0x0000FF00 &&& c) >>> 8

/-- The blue byte of a packed colour, `0x000000FF & c`. -/
def blueOf (c : Nat) : Nat := 0x000000FF &&& c

/-- The body of the branch `if (((c & (0xFF << 24)) >> 24) < 0xFF)` of
`ENGINE_pset` (lines 263-279): the new value of `c`, from the incoming colour
and the value `current` of the destination cell. -/
def ENGINE_pset_blend (c current : Nat) : Nat :=
  let newA := toU16 ((0xFF000000 &&& c) >>> 24)
  let oldR := toU16 ((255 - newA) * ((0x00FF0000 &&& current) >>> 16))
  let oldG := toU16 ((255 - newA) * ((0x0000FF00 &&& current) >>> 8))
  let oldB := toU16 ((255 - newA) * (0x000000FF &&& current))
  let newR := toU16 (newA * ((0x00FF0000 &&& c) >>> 16))
  let newG := toU16 (newA * ((0x0000FF00 &&& c) >>> 8))
  let newB := toU16 (newA * (0x000000FF &&& c))
  let a := toU8 newA
  let r := toU8 ((oldR + newR) / 255)
  let g := toU8 ((oldG + newG) / 255)
  let b := toU8 ((oldB + newB) / 255)
  toU32 ((a <<< 24) ||| (r <<< 16) ||| (g <<< 8) ||| b)

/-- The function `ENGINE_pset` (lines 254-283). -/
def ENGINE_pset (engine : ENGINE) (x y : Int) (c : Nat) : ENGINE :=
  let width : Int := toI32 engine.width
  let height : Int := toI32 engine.height
  if c &&& (0xFF <<< 24) = 0 then
    engine
  else if 0 ≤ x ∧ x < width ∧ 0 ≤ y ∧ y < height then
    let i := (width * y + x).toNat
    let c1 :=
      if (c &&& (0xFF <<< 24)) >>> 24 < 0xFF then
        ENGINE_pset_blend c (engine.pixels.getD i 0)
      else c
    { engine with pixels := engine.pixels.set i c1 }
  else
    engine

/-- The cell of the canvas at `(x, y)`: `pixels[width * y + x]`. -/
def ENGINE.cell (e : ENGINE) (x y : Int) : Nat :=
  e.pixels.getD ((e.width : Int) * y + x).toNat 0

/-- Exact per-channel blend of the specification, over the naturals:
`(alpha * src + (255 - alpha) * dst) / 255`. -/
def blendChannel (a src dst : Nat) : Nat := (a * src + (255 - a) * dst) / 255

/-- The value `ENGINE_pset` leaves in a cell it reaches, from the incoming colour `c`
and the previous value `v` of the cell (the three colour cases of lines 259-281). -/
def psetValue (c v : Nat) : Nat :=
  if c &&& (0xFF <<< 24) = 0 then v
  else if (c &&& (0xFF <<< 24)) >>> 24 < 0xFF then ENGINE_pset_blend c v
  else c

/-- The three intermediate results of one blended channel fit their C types:
the two `uint16_t` products and the `uint8_t` quotient. -/
def noWrap (a src dst : Nat) : Prop :=
  (255 - a) * dst < 2 ^ 16 ∧ a * src < 2 ^ 16 ∧ ((255 - a) * dst + a * src) / 255 < 2 ^ 8

/-- Run a sequence of `ENGINE_pset` calls, all with colour `c`, in order. -/
def plot (engine : ENGINE) (c : Nat) (calls : List (Int × Int)) : ENGINE :=
  calls.foldl (fun e p => ENGINE_pset e p.1 p.2 c) engine

/-- The `while (y <= y2)` loop of `ENGINE_line_high` (lines 323-332).  The first
argument bounds the number of iterations; `xi`, `dx`, `dy`, `y2` and the colour `c` are
the loop constants, the engine and `x`, `y`, `p` the loop variables. -/
def ENGINE_line_high_loop (xi dx dy y2 : Int) (c : Nat) :
    Nat → ENGINE → Int → Int → Int → ENGINE
  | 0, engine, _, _, _ => engine
  | fuel + 1, engine, x, y, p =>
    if y ≤ y2 then
      let engine1 := ENGINE_pset engine x y c
      if p > 0 then ENGINE_line_high_loop xi dx dy y2 c fuel engine1 (x + xi) (y + 1) (p - 2 * dy)
      else ENGINE_line_high_loop xi dx dy y2 c fuel engine1 x (y + 1) (p + 2 * dx)
    else engine

/-- The function `ENGINE_line_high` (lines 310-333).  The loop runs once for each `y`
in `y1 .. y2`, which is the bound given to it. -/
def ENGINE_line_high (engine : ENGINE) (x1 y1 x2 y2 : Int) (c : Nat) : ENGINE :=
  let dx0 := x2 - x1
  let dy := y2 - y1
  let xi : Int := if dx0 < 0 then -1 else 1
  let dx := if dx0 < 0 then -dx0 else dx0
  let p := 2 * dx - dy
  ENGINE_line_high_loop xi dx dy y2 c (y2 + 1 - y1).toNat engine x1 y1 p

/-- The `while (x <= x2)` loop of `ENGINE_line_low` (lines 348-357). -/
def ENGINE_line_low_loop (yi dx dy x2 : Int) (c : Nat) :
    Nat → ENGINE → Int → Int → Int → ENGINE
  | 0, engine, _, _, _ => engine
  | fuel + 1, engine, x, y, p =>
    if x ≤ x2 then
      let engine1 := ENGINE_pset engine x y c
      if p > 0 then ENGINE_line_low_loop yi dx dy x2 c fuel engine1 (x + 1) (y + yi) (p - 2 * dx)
      else ENGINE_line_low_loop yi dx dy x2 c fuel engine1 (x + 1) y (p + 2 * dy)
    else engine

/-- The function `ENGINE_line_low` (lines 335-358).  The loop runs once for each `x`
in `x1 .. x2`, which is the bound given to it. -/
def ENGINE_line_low (engine : ENGINE) (x1 y1 x2 y2 : Int) (c : Nat) : ENGINE :=
  let dx := x2 - x1
  let dy0 := y2 - y1
  let yi : Int := if dy0 < 0 then -1 else 1
  let dy := if dy0 < 0 then -dy0 else dy0
  let p := 2 * dy - dx
  ENGINE_line_low_loop yi dx dy x2 c (x2 + 1 - x1).toNat engine x1 y1 p

/-- The function `ENGINE_line` (lines 360-377); `llabs` is `Int.natAbs`. -/
def ENGINE_line (engine : ENGINE) (x1 y1 x2 y2 : Int) (c : Nat) : ENGINE :=
  if (y2 - y1).natAbs < (x2 - x1).natAbs then
    if x1 > x2 then ENGINE_line_low engine x2 y2 x1 y1 c
    else ENGINE_line_low engine x1 y1 x2 y2 c
  else
    if y1 > y2 then ENGINE_line_high engine x2 y2 x1 y1 c
    else ENGINE_line_high engine x1 y1 x2 y2 c

/-- The cells the loop of `ENGINE_line_high` passes to `ENGINE_pset`, in order: the
same loop as `ENGINE_line_high_loop`, recording each call instead of making it. -/
def ENGINE_line_high_callsLoop (xi dx dy y2 : Int) :
    Nat → Int → Int → Int → List (Int × Int)
  | 0, _, _, _ => []
  | fuel + 1, x, y, p =>
    if y ≤ y2 then
      (x, y) ::
        (if p > 0 then ENGINE_line_high_callsLoop xi dx dy y2 fuel (x + xi) (y + 1) (p - 2 * dy)
         else ENGINE_line_high_callsLoop xi dx dy y2 fuel x (y + 1) (p + 2 * dx))
    else []

/-- The cells `ENGINE_line_high` passes to `ENGINE_pset`, in order. -/
def ENGINE_line_high_calls (x1 y1 x2 y2 : Int) : List (Int × Int) :=
  let dx0 := x2 - x1
  let dy := y2 - y1
  let xi : Int := if dx0 < 0 then -1 else 1
  let dx := if dx0 < 0 then -dx0 else dx0
  let p := 2 * dx - dy
  ENGINE_line_high_callsLoop xi dx dy y2 (y2 + 1 - y1).toNat x1 y1 p

/-- The cells the loop of `ENGINE_line_low` passes to `ENGINE_pset`, in order: the
same loop as `ENGINE_line_low_loop`, recording each call instead of making it. -/
def ENGINE_line_low_callsLoop (yi dx dy x2 : Int) :
    Nat → Int → Int → Int → List (Int × Int)
  | 0, _, _, _ => []
  | fuel + 1, x, y, p =>
    if x ≤ x2 then
      (x, y) ::
        (if p > 0 then ENGINE_line_low_callsLoop yi dx dy x2 fuel (x + 1) (y + yi) (p - 2 * dx)
         else ENGINE_line_low_callsLoop yi dx dy x2 fuel (x + 1) y (p + 2 * dy))
    else []

/-- The cells `ENGINE_line_low` passes to `ENGINE_pset`, in order. -/
def ENGINE_line_low_calls (x1 y1 x2 y2 : Int) : List (Int × Int) :=
  let dx := x2 - x1
  let dy0 := y2 - y1
  let yi : Int := if dy0 < 0 then -1 else 1
  let dy := if dy0 < 0 then -dy0 else dy0
  let p := 2 * dy - dx
  ENGINE_line_low_callsLoop yi dx dy x2 (x2 + 1 - x1).toNat x1 y1 p

/-- The cells `ENGINE_line` passes to `ENGINE_pset`, in order. -/
def ENGINE_line_calls (x1 y1 x2 y2 : Int) : List (Int × Int) :=
  if (y2 - y1).natAbs < (x2 - x1).natAbs then
    if x1 > x2 then ENGINE_line_low_calls x2 y2 x1 y1
    else ENGINE_line_low_calls x1 y1 x2 y2
  else
    if y1 > y2 then ENGINE_line_high_calls x2 y2 x1 y1
    else ENGINE_line_high_calls x1 y1 x2 y2

/-- Modelled from the spec: the helper `mid`, used by `ENGINE_rectfill`, is missing
from `engine.c`; it is the median of its three arguments. -/
def mid (a b c : Int) : Int := max (min a b) (min (max a b) c)

/-- The values of the counter of `for (i = a; i < b; i++)`, in order. -/
def forRange (a b : Int) : List Int :=
  (List.range (b - a).toNat).map (fun (k : Nat) => a + (k : Int))

/-- The function `ENGINE_rectfill` (lines 542-556): the two nested `for` loops, rows
`j` from `y1` up to `y2` and in each row columns `i` from `x1` up to `x2`. -/
def ENGINE_rectfill (engine : ENGINE) (x y w h : Int) (c : Nat) : ENGINE :=
  let width : Int := toI32 engine.width
  let height : Int := toI32 engine.height
  let x1 := mid 0 x width
  let y1 := mid 0 y height
  let x2 := mid 0 (x + w) width
  let y2 := mid 0 (y + h) height
  (forRange y1 y2).foldl
    (fun e j => (forRange x1 x2).foldl (fun e1 i => ENGINE_pset e1 i j c) e) engine

/-- The cells `ENGINE_rectfill` passes to `ENGINE_pset`, in order. -/
def ENGINE_rectfill_calls (engine : ENGINE) (x y w h : Int) : List (Int × Int) :=
  let width : Int := toI32 engine.width
  let height : Int := toI32 engine.height
  let x1 := mid 0 x width
  let y1 := mid 0 y height
  let x2 := mid 0 (x + w) width
  let y2 := mid 0 (y + h) height
  (forRange y1 y2).flatMap (fun j => (forRange x1 x2).map (fun i => (i, j)))

/-- The function `ENGINE_canvasResize` (lines 629-652).  The two external calls are
parameters: `texture` tells whether `SDL_CreateTexture` returned a texture, and
`realloc` is the outcome of `realloc`, either `none` (a null pointer) or the cells of
the buffer it returned, whose contents the C library does not specify.  The result
is the engine afterwards and the returned boolean. -/
def ENGINE_canvasResize (engine : ENGINE) (newWidth newHeight color : Nat)
    (texture : Bool) (realloc : Option (List Nat)) : ENGINE × Bool :=
  if engine.width = newWidth ∧ engine.height = newHeight then
    (engine, true)
  else
    let engine1 : ENGINE := { engine with width := newWidth, height := newHeight }
    if texture = false then
      (engine1, false)
    else
      match realloc with
      | none => ({ engine1 with pixels := [] }, false)
      | some buffer =>
        let engine2 : ENGINE := { engine1 with pixels := buffer }
        (ENGINE_rectfill engine2 0 0 engine2.width engine2.height color, true)

/-- The function `ENGINE_rect` (lines 534-540): four calls of `ENGINE_line`. -/
def ENGINE_rect (engine : ENGINE) (x y w h : Int) (c : Nat) : ENGINE :=
  let engine1 := ENGINE_line engine x y x (y + h - 1) c
  let engine2 := ENGINE_line engine1 x y (x + w - 1) y c
  let engine3 := ENGINE_line engine2 x (y + h - 1) (x + w - 1) (y + h - 1) c
  ENGINE_line engine3 (x + w - 1) y (x + w - 1) (y + h - 1) c

/-- The cells `ENGINE_rect` passes to `ENGINE_pset`, in order. -/
def ENGINE_rect_calls (x y w h : Int) : List (Int × Int) :=
  ENGINE_line_calls x y x (y + h - 1)
    ++ ENGINE_line_calls x y (x + w - 1) y
    ++ ENGINE_line_calls x (y + h - 1) (x + w - 1) (y + h - 1)
    ++ ENGINE_line_calls (x + w - 1) y (x + w - 1) (y + h - 1)

/-- Byte `j` of the glyph of `letter`, `((uint8_t*)font8x8_basic[letter])[j]`.  The
table `font8x8_basic` is not in `engine.c`; it is the parameter `font`, which gives
row `j` of the glyph of each character code. -/
def glyphRow (font : Nat → Nat → Nat) (letter j : Nat) : Nat := toU8 (font letter j)

/-- The test `v != 0` of `ENGINE_print` for `v = (glyph[j] >> i) & 1` (lines 299-301). -/
def glyphBit (glyph : Nat → Nat) (j i : Nat) : Bool :=
  decide (toU8 ((glyph j >>> i) &&& 1) ≠ 0)

/-- The two nested `for` loops of `ENGINE_print` (lines 297-305), which draw one
glyph with the cursor at `cursor`. -/
def ENGINE_print_glyph (engine : ENGINE) (glyph : Nat → Nat) (x y cursor : Int) (c : Nat) :
    ENGINE :=
  (List.range 8).foldl
    (fun (e : ENGINE) (j : Nat) =>
      (List.range 8).foldl
        (fun (e1 : ENGINE) (i : Nat) =>
          if glyphBit glyph j i then ENGINE_pset e1 (x + cursor + (i : Int)) (y + (j : Int)) c
          else e1)
        e)
    engine

/-- The outer loop of `ENGINE_print` (lines 290-307) over the characters of the text
that remain, with the engine and the cursor as loop variables. -/
def ENGINE_print_loop (font : Nat → Nat → Nat) (x y : Int) (c : Nat) :
    List Nat → ENGINE → Int → ENGINE
  | [], engine, _ => engine
  | ch :: rest, engine, cursor =>
    let letter := toU8 ch
    if glyphRow font letter 0 = 10 then engine
    else
      ENGINE_print_loop font x y c rest
        (ENGINE_print_glyph engine (glyphRow font letter) x y cursor c) (cursor + 8)

/-- The function `ENGINE_print` (lines 285-308); `text` is the list of the character
codes of the C string, up to its terminating zero. -/
def ENGINE_print (engine : ENGINE) (font : Nat → Nat → Nat) (text : List Nat) (x y : Int)
    (c : Nat) : ENGINE :=
  ENGINE_print_loop font x y c text engine 0

/-- The cells the two inner loops of `ENGINE_print` pass to `ENGINE_pset` for one
glyph, in order. -/
def ENGINE_print_glyph_calls (glyph : Nat → Nat) (x y cursor : Int) : List (Int × Int) :=
  (List.range 8).flatMap
    (fun (j : Nat) =>
      ((List.range 8).filter (fun (i : Nat) => glyphBit glyph j i)).map
        (fun (i : Nat) => (x + cursor + (i : Int), y + (j : Int))))

/-- The cells the outer loop of `ENGINE_print` passes to `ENGINE_pset`, in order. -/
def ENGINE_print_callsLoop (font : Nat → Nat → Nat) (x y : Int) :
    List Nat → Int → List (Int × Int)
  | [], _ => []
  | ch :: rest, cursor =>
    let letter := toU8 ch
    if glyphRow font letter 0 = 10 then []
    else
      ENGINE_print_glyph_calls (glyphRow font letter) x y cursor
        ++ ENGINE_print_callsLoop font x y rest (cursor + 8)

/-- The cells `ENGINE_print` passes to `ENGINE_pset`, in order. -/
def ENGINE_print_calls (font : Nat → Nat → Nat) (text : List Nat) (x y : Int) :
    List (Int × Int) :=
  ENGINE_print_callsLoop font x y text 0

/-- The index of the first character of the text whose glyph has the newline value 10
as first row byte, or the length of the text if there is none. -/
def printStop (font : Nat → Nat → Nat) (text : List Nat) : Nat :=
  text.findIdx (fun ch => decide (glyphRow font ch 0 = 10))

/-- The body of the loop of `ENGINE_takeScreenshot` (lines 659-664): the cell written
to the image for the canvas cell `c`. -/
def ENGINE_takeScreenshot_cell (c : Nat) : Nat :=
  let a := toU8 ((0xFF000000 &&& c) >>> 24)
  let r := toU8 ((0x00FF0000 &&& c) >>> 16)
  let g := toU8 ((0x0000FF00 &&& c) >>> 8)
  let b := toU8 (0x000000FF &&& c)
  toU32 ((a <<< 24) ||| (b <<< 16) ||| (g <<< 8) ||| r)

/-- The function `ENGINE_takeScreenshot` (lines 654-668), up to the call of the PNG
encoder: the result is the engine afterwards and the cells of the image buffer handed
to `stbi_write_png`.  `imageSize` is a product of two `uint32_t`. -/
def ENGINE_takeScreenshot (engine : ENGINE) : ENGINE × List Nat :=
  let imageSize := toU32 (engine.width * engine.height)
  (engine,
    (List.range imageSize).map
      (fun (i : Nat) => ENGINE_takeScreenshot_cell (engine.pixels.getD i 0)))

/-- The double-precision computations of the two circle routines, which the embedding
takes as parameters: `start r` is the value of `round(M_PI - (2*r))`, `inside d x` the
`int64_t` stored by `d = d + (M_PI * x) + (M_PI * 2)` and `outside d x y` the one
stored by `d = d + (M_PI * (x - y)) + (M_PI * 3)`.  Both routines contain the same
three expressions. -/
structure CircleDecision where
  start : Int → Int
  inside : Int → Int → Int
  outside : Int → Int → Int → Int

/-- The `while (x <= y)` loop of `ENGINE_circle` (lines 407-425): eight calls of
`ENGINE_pset`, then the update of `d`, `y` and `x`.  The first argument bounds the
number of iterations. -/
def ENGINE_circle_loop (D : CircleDecision) (x0 y0 : Int) (c : Nat) :
    Nat → ENGINE → Int → Int → Int → ENGINE
  | 0, engine, _, _, _ => engine
  | fuel + 1, engine, x, y, d =>
    if x ≤ y then
      let e1 := ENGINE_pset engine (x0 + x) (y0 + y) c
      let e2 := ENGINE_pset e1 (x0 + y) (y0 + x) c
      let e3 := ENGINE_pset e2 (x0 - y) (y0 + x) c
      let e4 := ENGINE_pset e3 (x0 - x) (y0 + y) c
      let e5 := ENGINE_pset e4 (x0 - x) (y0 - y) c
      let e6 := ENGINE_pset e5 (x0 - y) (y0 - x) c
      let e7 := ENGINE_pset e6 (x0 + y) (y0 - x) c
      let e8 := ENGINE_pset e7 (x0 + x) (y0 - y) c
      if d < 0 then ENGINE_circle_loop D x0 y0 c fuel e8 (x + 1) y (D.inside d x)
      else ENGINE_circle_loop D x0 y0 c fuel e8 (x + 1) (y - 1) (D.outside d x y)
    else engine

/-- The function `ENGINE_circle` (lines 401-426).  The loop starts at `x = 0`, `y = r`,
and `y - x` falls at every iteration, so `r + 1` bounds the number of iterations. -/
def ENGINE_circle (D : CircleDecision) (engine : ENGINE) (x0 y0 r : Int) (c : Nat) : ENGINE :=
  ENGINE_circle_loop D x0 y0 c (r + 1).toNat engine 0 r (D.start r)

/-- The `while (x <= y)` loop of `ENGINE_circle_filled` (lines 385-398): four calls of
`ENGINE_line`, then the update of `d`, `y` and `x`. -/
def ENGINE_circle_filled_loop (D : CircleDecision) (x0 y0 : Int) (c : Nat) :
    Nat → ENGINE → Int → Int → Int → ENGINE
  | 0, engine, _, _, _ => engine
  | fuel + 1, engine, x, y, d =>
    if x ≤ y then
      let e1 := ENGINE_line engine (x0 - x) (y0 + y) (x0 + x) (y0 + y) c
      let e2 := ENGINE_line e1 (x0 - y) (y0 + x) (x0 + y) (y0 + x) c
      let e3 := ENGINE_line e2 (x0 + x) (y0 - y) (x0 - x) (y0 - y) c
      let e4 := ENGINE_line e3 (x0 - y) (y0 - x) (x0 + y) (y0 - x) c
      if d < 0 then ENGINE_circle_filled_loop D x0 y0 c fuel e4 (x + 1) y (D.inside d x)
      else ENGINE_circle_filled_loop D x0 y0 c fuel e4 (x + 1) (y - 1) (D.outside d x y)
    else engine

/-- The function `ENGINE_circle_filled` (lines 379-399). -/
def ENGINE_circle_filled (D : CircleDecision) (engine : ENGINE) (x0 y0 r : Int) (c : Nat) :
    ENGINE :=
  ENGINE_circle_filled_loop D x0 y0 c (r + 1).toNat engine 0 r (D.start r)

/-- The values `(x, y, d)` of the loop variables of `ENGINE_circle` at the start of
each iteration, in order: its loop without the drawing. -/
def ENGINE_circle_steps (D : CircleDecision) : Nat → Int → Int → Int → List (Int × Int × Int)
  | 0, _, _, _ => []
  | fuel + 1, x, y, d =>
    if x ≤ y then
      (x, y, d) ::
        (if d < 0 then ENGINE_circle_steps D fuel (x + 1) y (D.inside d x)
         else ENGINE_circle_steps D fuel (x + 1) (y - 1) (D.outside d x y))
    else []

/-- The values `(x, y, d)` of the loop variables of `ENGINE_circle_filled` at the start
of each iteration, in order: its loop without the drawing. -/
def ENGINE_circle_filled_steps (D : CircleDecision) :
    Nat → Int → Int → Int → List (Int × Int × Int)
  | 0, _, _, _ => []
  | fuel + 1, x, y, d =>
    if x ≤ y then
      (x, y, d) ::
        (if d < 0 then ENGINE_circle_filled_steps D fuel (x + 1) y (D.inside d x)
         else ENGINE_circle_filled_steps D fuel (x + 1) (y - 1) (D.outside d x y))
    else []

/-- The eight cells one iteration of `ENGINE_circle` passes to `ENGINE_pset`, in order. -/
def ENGINE_circle_points (x0 y0 x y : Int) : List (Int × Int) :=
  [(x0 + x, y0 + y), (x0 + y, y0 + x), (x0 - y, y0 + x), (x0 - x, y0 + y),
   (x0 - x, y0 - y), (x0 - y, y0 - x), (x0 + y, y0 - x), (x0 + x, y0 - y)]

/-- The cells one iteration of `ENGINE_circle_filled` passes to `ENGINE_pset` through
its four calls of `ENGINE_line`, in order. -/
def ENGINE_circle_spans (x0 y0 x y : Int) : List (Int × Int) :=
  ENGINE_line_calls (x0 - x) (y0 + y) (x0 + x) (y0 + y)
    ++ ENGINE_line_calls (x0 - y) (y0 + x) (x0 + y) (y0 + x)
    ++ ENGINE_line_calls (x0 + x) (y0 - y) (x0 - x) (y0 - y)
    ++ ENGINE_line_calls (x0 - y) (y0 - x) (x0 + y) (y0 - x)

/-- The cells `ENGINE_circle` passes to `ENGINE_pset`, in order. -/
def ENGINE_circle_calls (D : CircleDecision) (x0 y0 r : Int) : List (Int × Int) :=
  (ENGINE_circle_steps D (r + 1).toNat 0 r (D.start r)).flatMap
    (fun s => ENGINE_circle_points x0 y0 s.1 s.2.1)

/-- The cells `ENGINE_circle_filled` passes to `ENGINE_pset`, in order. -/
def ENGINE_circle_filled_calls (D : CircleDecision) (x0 y0 r : Int) : List (Int × Int) :=
  (ENGINE_circle_filled_steps D (r + 1).toNat 0 r (D.start r)).flatMap
    (fun s => ENGINE_circle_spans x0 y0 s.1 s.2.1)

/-- Conversion `int64_t -> int32_t` (two's complement), as done when an `int64_t`
value is stored into an `int32_t` variable. -/
def wrapI32 (z : Int) : Int := toI32 (z % 2 ^ 32).toNat

/-- The test `fabs(ellipse_getRegion(x, y, rx, ry)) < 1` of the ellipse routines
(lines 428-433, 454, 503), evaluated exactly: the quotient
`(rySquare * x) / (rxSquare * y)` is below 1 in absolute value when the divisor is not
zero and exceeds the dividend in absolute value; with a zero divisor the C quotient is
an infinity or a NaN and the test fails. -/
def ellipse_getRegion_lt_one (x y rx ry : Int) : Bool :=
  let rxSquare := rx * rx
  let rySquare := ry * ry
  decide (rxSquare * y ≠ 0 ∧ (rySquare * x).natAbs < (rxSquare * y).natAbs)

/-- Four times the decision parameter of the first loop of the ellipse routines,
`rySquare * xSquare + rxSquare * pow(y - 0.5, 2) - rx2ry2` (lines 458, 507), evaluated
exactly; the factor 4 makes it an integer and keeps its sign. -/
def ellipse_decision1 (rxSquare rySquare rx2ry2 x y : Int) : Int :=
  4 * (rySquare * (x * x)) + rxSquare * ((2 * y - 1) * (2 * y - 1)) - 4 * rx2ry2

/-- Four times the decision parameter of the second loop of the ellipse routines,
`rxSquare * ySquare + rySquare * pow(x + 0.5, 2) - rx2ry2` (lines 471, 522), evaluated
exactly. -/
def ellipse_decision2 (rxSquare rySquare rx2ry2 x y : Int) : Int :=
  4 * (rxSquare * (y * y)) + rySquare * ((2 * x + 1) * (2 * x + 1)) - 4 * rx2ry2

/-- The radii and the centre computed by `ENGINE_ellipsefill` (lines 439-447), as
`(rx, ry, xc, yc)`; the C division truncates towards zero. -/
def ENGINE_ellipsefill_radii (x0 y0 x1 y1 : Int) : Int × Int × Int × Int :=
  let rx := wrapI32 ((x1 - x0).tdiv 2)
  let ry := wrapI32 ((y1 - y0).tdiv 2)
  let xc := wrapI32 (min x0 x1 + rx)
  let yc := wrapI32 (min y0 y1 + ry)
  (rx, ry, xc, yc)

/-- The first loop of `ENGINE_ellipsefill` (lines 454-465); the result is the engine
and the values of `x` and `y` when the loop is left.  The first argument bounds the
number of iterations. -/
def ENGINE_ellipsefill_loop1 (rx ry rxSquare rySquare rx2ry2 xc yc : Int) (c : Nat) :
    Nat → ENGINE → Int → Int → ENGINE × Int × Int
  | 0, engine, x, y => (engine, x, y)
  | fuel + 1, engine, x, y =>
    if ellipse_getRegion_lt_one x y rx ry then
      let x1 := x + 1
      let d := ellipse_decision1 rxSquare rySquare rx2ry2 x1 y
      let y1 := if d > 0 then y - 1 else y
      let e1 := ENGINE_line engine (xc + x1) (yc + y1) (xc - x1) (yc + y1) c
      let e2 := ENGINE_line e1 (xc - x1) (yc - y1) (xc + x1) (yc - y1) c
      ENGINE_ellipsefill_loop1 rx ry rxSquare rySquare rx2ry2 xc yc c fuel e2 x1 y1
    else (engine, x, y)

/-- The second loop of `ENGINE_ellipsefill` (lines 467-478). -/
def ENGINE_ellipsefill_loop2 (rxSquare rySquare rx2ry2 xc yc : Int) (c : Nat) :
    Nat → ENGINE → Int → Int → ENGINE
  | 0, engine, _, _ => engine
  | fuel + 1, engine, x, y =>
    if y > 0 then
      let y1 := y - 1
      let d := ellipse_decision2 rxSquare rySquare rx2ry2 x y1
      let x1 := if d ≤ 0 then x + 1 else x
      let e1 := ENGINE_line engine (xc + x1) (yc + y1) (xc - x1) (yc + y1) c
      let e2 := ENGINE_line e1 (xc - x1) (yc - y1) (xc + x1) (yc - y1) c
      ENGINE_ellipsefill_loop2 rxSquare rySquare rx2ry2 xc yc c fuel e2 x1 y1
    else engine

/-- The function `ENGINE_ellipsefill` (lines 435-479).  `rxSquare`, `rySquare` and
`rx2ry2` are `uint32_t`.  When `ry` is not negative the first loop runs at most
`rx * rx` times and the second one `y` times, which are the bounds given to them; with
a negative `ry` the first loop of the C code need not end, and the bound cuts it. -/
def ENGINE_ellipsefill (engine : ENGINE) (x0 y0 x1 y1 : Int) (c : Nat) : ENGINE :=
  let q := ENGINE_ellipsefill_radii x0 y0 x1 y1
  let rx := q.1
  let ry := q.2.1
  let rxSquare := (rx * rx) % 2 ^ 32
  let rySquare := (ry * ry) % 2 ^ 32
  let rx2ry2 := (rxSquare * rySquare) % 2 ^ 32
  let xc := q.2.2.1
  let yc := q.2.2.2
  let s := ENGINE_ellipsefill_loop1 rx ry rxSquare rySquare rx2ry2 xc yc c (rx * rx).toNat
    engine 0 ry
  ENGINE_ellipsefill_loop2 rxSquare rySquare rx2ry2 xc yc c s.2.2.toNat s.1 s.2.1 s.2.2

/-- The radii and the centre computed by `ENGINE_ellipse` (lines 485-493), as
`(rx, ry, xc, yc)`; `llabs` is `Int.natAbs`. -/
def ENGINE_ellipse_radii (x0 y0 x1 y1 : Int) : Int × Int × Int × Int :=
  let rx := wrapI32 (((x1 - x0).natAbs : Int) / 2)
  let ry := wrapI32 (((y1 - y0).natAbs : Int) / 2)
  let xc := wrapI32 (min x0 x1 + rx)
  let yc := wrapI32 (min y0 y1 + ry)
  (rx, ry, xc, yc)

/-- The first loop of `ENGINE_ellipse` (lines 503-516); the result is the engine and
the values of `x` and `y` when the loop is left. -/
def ENGINE_ellipse_loop1 (rx ry rxSquare rySquare rx2ry2 xc yc : Int) (c : Nat) :
    Nat → ENGINE → Int → Int → ENGINE × Int × Int
  | 0, engine, x, y => (engine, x, y)
  | fuel + 1, engine, x, y =>
    if ellipse_getRegion_lt_one x y rx ry then
      let x1 := x + 1
      let d := ellipse_decision1 rxSquare rySquare rx2ry2 x1 y
      let y1 := if d > 0 then y - 1 else y
      let e1 := ENGINE_pset engine (xc + x1) (yc + y1) c
      let e2 := ENGINE_pset e1 (xc - x1) (yc - y1) c
      let e3 := ENGINE_pset e2 (xc - x1) (yc + y1) c
      let e4 := ENGINE_pset e3 (xc + x1) (yc - y1) c
      ENGINE_ellipse_loop1 rx ry rxSquare rySquare rx2ry2 xc yc c fuel e4 x1 y1
    else (engine, x, y)

/-- The second loop of `ENGINE_ellipse` (lines 518-531). -/
def ENGINE_ellipse_loop2 (rxSquare rySquare rx2ry2 xc yc : Int) (c : Nat) :
    Nat → ENGINE → Int → Int → ENGINE
  | 0, engine, _, _ => engine
  | fuel + 1, engine, x, y =>
    if y > 0 then
      let y1 := y - 1
      let d := ellipse_decision2 rxSquare rySquare rx2ry2 x y1
      let x1 := if d ≤ 0 then x + 1 else x
      let e1 := ENGINE_pset engine (xc + x1) (yc + y1) c
      let e2 := ENGINE_pset e1 (xc - x1) (yc - y1) c
      let e3 := ENGINE_pset e2 (xc - x1) (yc + y1) c
      let e4 := ENGINE_pset e3 (xc + x1) (yc - y1) c
      ENGINE_ellipse_loop2 rxSquare rySquare rx2ry2 xc yc c fuel e4 x1 y1
    else engine

/-- The function `ENGINE_ellipse` (lines 481-532).  `rxSquare`, `rySquare` and `rx2ry2`
are `int32_t`; `x` and `y` are doubles holding whole numbers. -/
def ENGINE_ellipse (engine : ENGINE) (x0 y0 x1 y1 : Int) (c : Nat) : ENGINE :=
  let q := ENGINE_ellipse_radii x0 y0 x1 y1
  let rx := q.1
  let ry := q.2.1
  let rxSquare := rx * rx
  let rySquare := ry * ry
  let rx2ry2 := rxSquare * rySquare
  let xc := q.2.2.1
  let yc := q.2.2.2
  let e1 := ENGINE_pset engine (xc + 0) (yc + ry) c
  let e2 := ENGINE_pset e1 (xc + 0) (yc - ry) c
  let s := ENGINE_ellipse_loop1 rx ry rxSquare rySquare rx2ry2 xc yc c (rx * rx).toNat
    e2 0 ry
  ENGINE_ellipse_loop2 rxSquare rySquare rx2ry2 xc yc c s.2.2.toNat s.1 s.2.1 s.2.2

/-- The rounding condition of standard Bresenham rasterisation for a cell `(x, y)` of
the low-slope line from `(x1, y1)` to `(x2, y2)`:
`|y - (y1 + (x - x1) * (y2 - y1) / (x2 - x1))| <= 1/2`, cleared of denominators.  For a
steep line the same condition is read with the roles of `x` and `y` exchanged. -/
def withinHalf (x1 y1 x2 y2 x y : Int) : Prop :=
  2 * ((y - y1) * (x2 - x1) - (x - x1) * (y2 - y1)).natAbs ≤ (x2 - x1).natAbs

instance (x1 y1 x2 y2 x y : Int) : Decidable (withinHalf x1 y1 x2 y2 x y) := by
  unfold withinHalf; infer_instance

/-! ## Arithmetic of the fixed-width types -/

theorem toI32_of_lt {n : Nat} (h : n < 2 ^ 31) : toI32 n = (n : Int) := by
  have h1 : n % 2 ^ 32 = n := Nat.mod_eq_of_lt (by omega)
  unfold toI32
  rw [h1, if_pos h]

theorem toI32_le (n : Nat) : toI32 n ≤ (n : Int) := by
  unfold toI32
  have h1 : n % 2 ^ 32 ≤ n := Nat.mod_le _ _
  split <;> omega

theorem mask_shift_le (m c k : Nat) : (m &&& c) >>> k ≤ m >>> k := by
  rw [Nat.shiftRight_eq_div_pow, Nat.shiftRight_eq_div_pow]
  exact Nat.div_le_div_right Nat.and_le_left

theorem alphaOf_le (c : Nat) : alphaOf c ≤ 255 := by
  unfold alphaOf
  rw [Nat.land_comm]
  exact mask_shift_le (0xFF <<< 24) c 24

theorem redOf_le (c : Nat) : redOf c ≤ 255 := mask_shift_le 0x00FF0000 c 16

theorem greenOf_le (c : Nat) : greenOf c ≤ 255 := mask_shift_le 0x0000FF00 c 8

theorem blueOf_le (c : Nat) : blueOf c ≤ 255 := Nat.and_le_left

theorem alphaOf_eq (c : Nat) : (0xFF000000 &&& c) >>> 24 = alphaOf c := by
  unfold alphaOf
  rw [Nat.land_comm]
  rfl

theorem mul_byte_lt {a b : Nat} (ha : a ≤ 255) (hb : b ≤ 255) : a * b < 2 ^ 16 := by
  have : a * b ≤ 255 * 255 := Nat.mul_le_mul ha hb
  omega

theorem blendChannel_le {a s d : Nat} (ha : a ≤ 255) (hs : s ≤ 255) (hd : d ≤ 255) :
    blendChannel a s d ≤ 255 := by
  unfold blendChannel
  have h1 : a * s ≤ a * 255 := Nat.mul_le_mul_left a hs
  have h2 : (255 - a) * d ≤ (255 - a) * 255 := Nat.mul_le_mul_left _ hd
  have h3 : a * 255 + (255 - a) * 255 = 255 * 255 := by
    rw [← Nat.add_mul]; congr 1; omega
  have h4 : a * s + (255 - a) * d ≤ 255 * 255 := by omega
  calc (a * s + (255 - a) * d) / 255 ≤ (255 * 255) / 255 := Nat.div_le_div_right h4
    _ = 255 := by norm_num

theorem pack_lt {a r g b : Nat} (ha : a ≤ 255) (hr : r ≤ 255) (hg : g ≤ 255) (hb : b ≤ 255) :
    (a <<< 24) ||| (r <<< 16) ||| (g <<< 8) ||| b < 2 ^ 32 := by
  refine Nat.or_lt_two_pow (Nat.or_lt_two_pow (Nat.or_lt_two_pow ?_ ?_) ?_) ?_
  · rw [Nat.shiftLeft_eq]; omega
  · rw [Nat.shiftLeft_eq]; omega
  · rw [Nat.shiftLeft_eq]; omega
  · omega

/-- The C arithmetic of the blending branch agrees with the exact formula. -/
theorem ENGINE_pset_blend_eq (c current : Nat) :
    ENGINE_pset_blend c current =
      (alphaOf c <<< 24)
        ||| (blendChannel (alphaOf c) (redOf c) (redOf current) <<< 16)
        ||| (blendChannel (alphaOf c) (greenOf c) (greenOf current) <<< 8)
        ||| blendChannel (alphaOf c) (blueOf c) (blueOf current) := by
  have ha := alphaOf_le c
  have ha2 : 255 - alphaOf c ≤ 255 := Nat.sub_le _ _
  have e16 : ∀ {n : Nat}, n < 2 ^ 16 → toU16 n = n := fun h => Nat.mod_eq_of_lt h
  have e8 : ∀ {n : Nat}, n ≤ 255 → toU8 n = n := fun h => Nat.mod_eq_of_lt (by omega)
  unfold ENGINE_pset_blend
  simp only [alphaOf_eq]
  rw [e16 (show alphaOf c < 2 ^ 16 by omega)]
  have oR : toU16 ((255 - alphaOf c) * ((0x00FF0000 &&& current) >>> 16))
      = (255 - alphaOf c) * redOf current := e16 (mul_byte_lt ha2 (redOf_le current))
  have oG : toU16 ((255 - alphaOf c) * ((0x0000FF00 &&& current) >>> 8))
      = (255 - alphaOf c) * greenOf current := e16 (mul_byte_lt ha2 (greenOf_le current))
  have oB : toU16 ((255 - alphaOf c) * (0x000000FF &&& current))
      = (255 - alphaOf c) * blueOf current := e16 (mul_byte_lt ha2 (blueOf_le current))
  have nR : toU16 (alphaOf c * ((0x00FF0000 &&& c) >>> 16))
      = alphaOf c * redOf c := e16 (mul_byte_lt ha (redOf_le c))
  have nG : toU16 (alphaOf c * ((0x0000FF00 &&& c) >>> 8))
      = alphaOf c * greenOf c := e16 (mul_byte_lt ha (greenOf_le c))
  have nB : toU16 (alphaOf c * (0x000000FF &&& c))
      = alphaOf c * blueOf c := e16 (mul_byte_lt ha (blueOf_le c))
  rw [oR, oG, oB, nR, nG, nB]
  have hr := blendChannel_le ha (redOf_le c) (redOf_le current)
  have hg := blendChannel_le ha (greenOf_le c) (greenOf_le current)
  have hb := blendChannel_le ha (blueOf_le c) (blueOf_le current)
  have cr : ((255 - alphaOf c) * redOf current + alphaOf c * redOf c) / 255
      = blendChannel (alphaOf c) (redOf c) (redOf current) := by
    unfold blendChannel; rw [Nat.add_comm]
  have cg : ((255 - alphaOf c) * greenOf current + alphaOf c * greenOf c) / 255
      = blendChannel (alphaOf c) (greenOf c) (greenOf current) := by
    unfold blendChannel; rw [Nat.add_comm]
  have cb : ((255 - alphaOf c) * blueOf current + alphaOf c * blueOf c) / 255
      = blendChannel (alphaOf c) (blueOf c) (blueOf current) := by
    unfold blendChannel; rw [Nat.add_comm]
  rw [cr, cg, cb, e8 ha, e8 hr, e8 hg, e8 hb]
  exact Nat.mod_eq_of_lt (pack_lt ha hr hg hb)

/-! ## The pixel primitive -/

theorem alphaOf_eq_zero_iff (c : Nat) : alphaOf c = 0 ↔ c &&& (0xFF <<< 24) = 0 := by
  unfold alphaOf
  constructor
  · intro h
    apply Nat.eq_of_testBit_eq
    intro j
    have hj := congrArg (fun n => Nat.testBit n (j - 24)) h
    simp only [Nat.testBit_shiftRight, Nat.testBit_and, Nat.testBit_shiftLeft,
      Nat.zero_testBit] at hj ⊢
    by_cases h24 : 24 ≤ j
    · have e1 : 24 + (j - 24) = j := by omega
      rw [e1] at hj
      simpa using hj
    · simp [h24]
  · intro h
    rw [h]
    rfl

theorem cellIndex_toNat (w : Nat) {x y : Int} (hx0 : 0 ≤ x) (hy0 : 0 ≤ y) :
    ((w : Int) * y + x).toNat = w * y.toNat + x.toNat := by
  lift x to Nat using hx0
  lift y to Nat using hy0
  simp only [Int.toNat_natCast]
  exact_mod_cast Int.toNat_natCast (w * y + x)

theorem cellIndex_lt {w h : Nat} {x y : Int} (hx0 : 0 ≤ x) (hx : x < w) (hy0 : 0 ≤ y)
    (hy : y < h) : ((w : Int) * y + x).toNat < w * h := by
  rw [cellIndex_toNat w hx0 hy0]
  have h1 : x.toNat < w := by omega
  have h2 : y.toNat + 1 ≤ h := by omega
  calc w * y.toNat + x.toNat < w * y.toNat + w := by omega
    _ = w * (y.toNat + 1) := by ring
    _ ≤ w * h := Nat.mul_le_mul_left w h2

/-- Inside the canvas and with a non-zero alpha byte, `ENGINE_pset` rewrites one cell. -/
theorem ENGINE_pset_inside (e : ENGINE) (x y : Int) (c : Nat)
    (hw : e.width < 2 ^ 31) (hh : e.height < 2 ^ 31)
    (hx0 : 0 ≤ x) (hx : x < e.width) (hy0 : 0 ≤ y) (hy : y < e.height)
    (ha : alphaOf c ≠ 0) :
    ENGINE_pset e x y c =
      { e with
        pixels := e.pixels.set ((e.width : Int) * y + x).toNat
                    (if alphaOf c < 255 then ENGINE_pset_blend c (e.cell x y) else c) } := by
  have hc : ¬ (c &&& (0xFF <<< 24) = 0) := fun h => ha ((alphaOf_eq_zero_iff c).2 h)
  unfold ENGINE_pset
  simp only [toI32_of_lt hw, toI32_of_lt hh]
  rw [if_neg hc, if_pos ⟨hx0, hx, hy0, hy⟩]
  rfl

theorem ENGINE_pset_clipped (e : ENGINE) (x y : Int) (c : Nat)
    (h : ¬ (0 ≤ x ∧ x < e.width ∧ 0 ≤ y ∧ y < e.height)) : ENGINE_pset e x y c = e := by
  unfold ENGINE_pset
  have h2 : ¬ (0 ≤ x ∧ x < toI32 e.width ∧ 0 ≤ y ∧ y < toI32 e.height) := by
    rintro ⟨a, b, c1, d⟩
    exact h ⟨a, lt_of_lt_of_le b (toI32_le _), c1, lt_of_lt_of_le d (toI32_le _)⟩
  simp only [if_neg h2]
  split <;> rfl

theorem ENGINE_pset_width (e : ENGINE) (x y : Int) (c : Nat) :
    (ENGINE_pset e x y c).width = e.width := by
  unfold ENGINE_pset
  simp only
  split
  · rfl
  · split <;> rfl

theorem ENGINE_pset_height (e : ENGINE) (x y : Int) (c : Nat) :
    (ENGINE_pset e x y c).height = e.height := by
  unfold ENGINE_pset
  simp only
  split
  · rfl
  · split <;> rfl

theorem ENGINE_pset_length (e : ENGINE) (x y : Int) (c : Nat) :
    (ENGINE_pset e x y c).pixels.length = e.pixels.length := by
  unfold ENGINE_pset
  simp only
  split
  · rfl
  · split
    · simp
    · rfl

theorem ENGINE_pset_wellFormed (e : ENGINE) (x y : Int) (c : Nat) (h : e.wellFormed) :
    (ENGINE_pset e x y c).wellFormed := by
  unfold ENGINE.wellFormed at *
  rw [ENGINE_pset_width, ENGINE_pset_height, ENGINE_pset_length]
  exact h

theorem psetValue_eq (c v : Nat) :
    psetValue c v =
      if alphaOf c = 0 then v else if alphaOf c < 255 then ENGINE_pset_blend c v else c := by
  unfold psetValue
  by_cases h : c &&& (0xFF <<< 24) = 0
  · rw [if_pos h, if_pos ((alphaOf_eq_zero_iff c).2 h)]
  · rw [if_neg h, if_neg (fun h0 => h ((alphaOf_eq_zero_iff c).1 h0))]
    rfl

theorem ENGINE_pset_transparent (e : ENGINE) (x y : Int) (c : Nat) (h : alphaOf c = 0) :
    ENGINE_pset e x y c = e := by
  unfold ENGINE_pset
  simp only [if_pos ((alphaOf_eq_zero_iff c).1 h)]

theorem cellIndex_inj {w : Nat} {x y u v : Int} (hx0 : 0 ≤ x) (hx : x < w) (hy0 : 0 ≤ y)
    (hu0 : 0 ≤ u) (hu : u < w) (hv0 : 0 ≤ v)
    (h : ((w : Int) * y + x).toNat = ((w : Int) * v + u).toNat) : x = u ∧ y = v := by
  rw [cellIndex_toNat w hx0 hy0, cellIndex_toNat w hu0 hv0] at h
  have h1 : x.toNat < w := by omega
  have h2 : u.toNat < w := by omega
  have hm := congrArg (fun n => n % w) h
  simp only [Nat.mul_add_mod, Nat.mod_eq_of_lt h1, Nat.mod_eq_of_lt h2] at hm
  have hw : 0 < w := by omega
  have hd : w * y.toNat = w * v.toNat := by omega
  have hy : y.toNat = v.toNat := Nat.eq_of_mul_eq_mul_left hw hd
  constructor <;> omega

/-- Reading any canvas cell after one `ENGINE_pset`. -/
theorem ENGINE_pset_cell (e : ENGINE) (hwf : e.wellFormed) (px py : Int) (c : Nat)
    (x y : Int) (hx0 : 0 ≤ x) (hx : x < e.width) (hy0 : 0 ≤ y) (hy : y < e.height) :
    (ENGINE_pset e px py c).cell x y =
      if (px, py) = (x, y) then psetValue c (e.cell x y) else e.cell x y := by
  obtain ⟨hw, hh, hlen⟩ := hwf
  by_cases ha : alphaOf c = 0
  · rw [ENGINE_pset_transparent e px py c ha, psetValue_eq, if_pos ha]
    split <;> rfl
  by_cases hp : 0 ≤ px ∧ px < e.width ∧ 0 ≤ py ∧ py < e.height
  · obtain ⟨hp1, hp2, hp3, hp4⟩ := hp
    rw [ENGINE_pset_inside e px py c hw hh hp1 hp2 hp3 hp4 ha]
    unfold ENGINE.cell
    simp only
    by_cases heq : (px, py) = (x, y)
    · obtain ⟨rfl, rfl⟩ := Prod.mk.inj heq
      have hi : ((e.width : Int) * py + px).toNat < e.pixels.length := by
        rw [hlen]; exact cellIndex_lt hx0 hx hy0 hy
      rw [if_pos rfl, psetValue_eq, if_neg ha]
      simp [List.getD_eq_getElem?_getD, List.getElem?_set_self hi, ENGINE.cell]
    · rw [if_neg heq]
      have hne : ((e.width : Int) * py + px).toNat ≠ ((e.width : Int) * y + x).toNat := by
        intro h
        obtain ⟨h1, h2⟩ := cellIndex_inj hp1 hp2 hp3 hx0 hx hy0 h
        exact heq (by rw [h1, h2])
      simp [List.getD_eq_getElem?_getD, List.getElem?_set_ne hne]
  · rw [ENGINE_pset_clipped e px py c hp]
    have heq : (px, py) ≠ (x, y) := by
      intro h
      obtain ⟨rfl, rfl⟩ := Prod.mk.inj h
      exact hp ⟨hx0, hx, hy0, hy⟩
    rw [if_neg heq]

/-! ## Sequences of `ENGINE_pset` calls -/

theorem plot_nil (e : ENGINE) (c : Nat) : plot e c [] = e := rfl

theorem plot_cons (e : ENGINE) (c : Nat) (p : Int × Int) (l : List (Int × Int)) :
    plot e c (p :: l) = plot (ENGINE_pset e p.1 p.2 c) c l := rfl

theorem plot_width (e : ENGINE) (c : Nat) (l : List (Int × Int)) :
    (plot e c l).width = e.width := by
  induction l generalizing e with
  | nil => rfl
  | cons p l ih => rw [plot_cons, ih, ENGINE_pset_width]

theorem plot_height (e : ENGINE) (c : Nat) (l : List (Int × Int)) :
    (plot e c l).height = e.height := by
  induction l generalizing e with
  | nil => rfl
  | cons p l ih => rw [plot_cons, ih, ENGINE_pset_height]

theorem plot_length (e : ENGINE) (c : Nat) (l : List (Int × Int)) :
    (plot e c l).pixels.length = e.pixels.length := by
  induction l generalizing e with
  | nil => rfl
  | cons p l ih => rw [plot_cons, ih, ENGINE_pset_length]

theorem plot_wellFormed (e : ENGINE) (c : Nat) (l : List (Int × Int)) (h : e.wellFormed) :
    (plot e c l).wellFormed := by
  unfold ENGINE.wellFormed at *
  rw [plot_width, plot_height, plot_length]
  exact h

/-- A canvas cell after a sequence of calls: `psetValue c` was applied to it once for
each call that names it. -/
theorem plot_cell (e : ENGINE) (hwf : e.wellFormed) (c : Nat) (l : List (Int × Int))
    (x y : Int) (hx0 : 0 ≤ x) (hx : x < e.width) (hy0 : 0 ≤ y) (hy : y < e.height) :
    (plot e c l).cell x y = (psetValue c)^[l.count (x, y)] (e.cell x y) := by
  induction l generalizing e with
  | nil => rfl
  | cons p l ih =>
    rw [plot_cons, ih (ENGINE_pset e p.1 p.2 c) (ENGINE_pset_wellFormed e _ _ c hwf)
      (by rw [ENGINE_pset_width]; exact hx) (by rw [ENGINE_pset_height]; exact hy),
      ENGINE_pset_cell e hwf p.1 p.2 c x y hx0 hx hy0 hy]
    by_cases heq : p = (x, y)
    · subst heq
      simp [List.count_cons_self, Function.iterate_succ_apply]
    · have h2 : ¬ ((p.1, p.2) = (x, y)) := heq
      rw [if_neg h2, List.count_cons_of_ne (fun h => heq h.symm)]

theorem psetValue_opaque (c v : Nat) (h : alphaOf c = 255) : psetValue c v = c := by
  rw [psetValue_eq, if_neg (by omega), if_neg (by omega)]

/-- A canvas cell after a sequence of calls without repetition. -/
theorem plot_cell_nodup (e : ENGINE) (hwf : e.wellFormed) (c : Nat) (l : List (Int × Int))
    (hnd : l.Nodup) (x y : Int) (hx0 : 0 ≤ x) (hx : x < e.width) (hy0 : 0 ≤ y)
    (hy : y < e.height) :
    (plot e c l).cell x y = if (x, y) ∈ l then psetValue c (e.cell x y) else e.cell x y := by
  induction l generalizing e with
  | nil => simp [plot_nil]
  | cons p l ih =>
    obtain ⟨hp, hl⟩ := List.nodup_cons.1 hnd
    rw [plot_cons, ih (ENGINE_pset e p.1 p.2 c) (ENGINE_pset_wellFormed e _ _ c hwf) hl
      (by rw [ENGINE_pset_width]; exact hx) (by rw [ENGINE_pset_height]; exact hy),
      ENGINE_pset_cell e hwf p.1 p.2 c x y hx0 hx hy0 hy]
    by_cases heq : p = (x, y)
    · subst heq
      simp [hp]
    · have h2 : ¬ ((p.1, p.2) = (x, y)) := heq
      have h3 : (x, y) ∈ p :: l ↔ (x, y) ∈ l := by
        rw [List.mem_cons]
        exact ⟨fun h => h.resolve_left (fun h1 => heq h1.symm), Or.inr⟩
      simp only [if_neg h2, h3]

/-! ## The drawing routines and the calls they make -/

theorem ENGINE_line_low_loop_eq_plot (yi dx dy x2 : Int) (c : Nat) (n : Nat) (e : ENGINE)
    (x y p : Int) :
    ENGINE_line_low_loop yi dx dy x2 c n e x y p =
      plot e c (ENGINE_line_low_callsLoop yi dx dy x2 n x y p) := by
  induction n generalizing e x y p with
  | zero => rfl
  | succ n ih =>
    simp only [ENGINE_line_low_loop, ENGINE_line_low_callsLoop]
    split
    · split
      · rw [plot_cons, ih]
      · rw [plot_cons, ih]
    · rfl

theorem ENGINE_line_high_loop_eq_plot (xi dx dy y2 : Int) (c : Nat) (n : Nat) (e : ENGINE)
    (x y p : Int) :
    ENGINE_line_high_loop xi dx dy y2 c n e x y p =
      plot e c (ENGINE_line_high_callsLoop xi dx dy y2 n x y p) := by
  induction n generalizing e x y p with
  | zero => rfl
  | succ n ih =>
    simp only [ENGINE_line_high_loop, ENGINE_line_high_callsLoop]
    split
    · split
      · rw [plot_cons, ih]
      · rw [plot_cons, ih]
    · rfl

theorem ENGINE_line_low_eq_plot (e : ENGINE) (x1 y1 x2 y2 : Int) (c : Nat) :
    ENGINE_line_low e x1 y1 x2 y2 c = plot e c (ENGINE_line_low_calls x1 y1 x2 y2) := by
  unfold ENGINE_line_low ENGINE_line_low_calls
  exact ENGINE_line_low_loop_eq_plot _ _ _ _ _ _ _ _ _ _

theorem ENGINE_line_high_eq_plot (e : ENGINE) (x1 y1 x2 y2 : Int) (c : Nat) :
    ENGINE_line_high e x1 y1 x2 y2 c = plot e c (ENGINE_line_high_calls x1 y1 x2 y2) := by
  unfold ENGINE_line_high ENGINE_line_high_calls
  exact ENGINE_line_high_loop_eq_plot _ _ _ _ _ _ _ _ _ _

/-- The canvas after `ENGINE_line` is the canvas after its calls, made in order. -/
theorem ENGINE_line_eq_plot (e : ENGINE) (x1 y1 x2 y2 : Int) (c : Nat) :
    ENGINE_line e x1 y1 x2 y2 c = plot e c (ENGINE_line_calls x1 y1 x2 y2) := by
  unfold ENGINE_line ENGINE_line_calls
  split
  · split
    · exact ENGINE_line_low_eq_plot _ _ _ _ _ _
    · exact ENGINE_line_low_eq_plot _ _ _ _ _ _
  · split
    · exact ENGINE_line_high_eq_plot _ _ _ _ _ _
    · exact ENGINE_line_high_eq_plot _ _ _ _ _ _

theorem plot_append (e : ENGINE) (c : Nat) (l1 l2 : List (Int × Int)) :
    plot e c (l1 ++ l2) = plot (plot e c l1) c l2 := by
  unfold plot
  rw [List.foldl_append]

theorem plot_flatMap_rows (e : ENGINE) (c : Nat) (rows cols : List Int) :
    rows.foldl (fun e j => cols.foldl (fun e1 i => ENGINE_pset e1 i j c) e) e =
      plot e c (rows.flatMap (fun j => cols.map (fun i => (i, j)))) := by
  induction rows generalizing e with
  | nil => rfl
  | cons j rows ih =>
    rw [List.foldl_cons, ih, List.flatMap_cons, plot_append]
    congr 1
    unfold plot
    rw [List.foldl_map]

/-- The canvas after `ENGINE_rectfill` is the canvas after its calls, made in order. -/
theorem ENGINE_rectfill_eq_plot (e : ENGINE) (x y w h : Int) (c : Nat) :
    ENGINE_rectfill e x y w h c = plot e c (ENGINE_rectfill_calls e x y w h) := by
  unfold ENGINE_rectfill ENGINE_rectfill_calls
  exact plot_flatMap_rows _ _ _ _

/-! ## The line loops run to completion -/

/-- The bound given by `ENGINE_line_low_calls` is enough: with any larger bound the loop
of `ENGINE_line_low` makes the same calls, so the guard `x <= x2` ends the loop. -/
theorem ENGINE_line_low_callsLoop_fuel (yi dx dy x2 : Int) (n : Nat) (x y p : Int)
    (h : (x2 + 1 - x).toNat ≤ n) :
    ENGINE_line_low_callsLoop yi dx dy x2 n x y p =
      ENGINE_line_low_callsLoop yi dx dy x2 (x2 + 1 - x).toNat x y p := by
  induction n generalizing x y p with
  | zero =>
    have h0 : (x2 + 1 - x).toNat = 0 := by omega
    rw [h0]
  | succ n ih =>
    by_cases hx : x ≤ x2
    · have hs : (x2 + 1 - x).toNat = (x2 + 1 - (x + 1)).toNat + 1 := by omega
      rw [hs]
      simp only [ENGINE_line_low_callsLoop, if_pos hx]
      rw [ih (x + 1) (y + yi) (p - 2 * dx) (by omega), ih (x + 1) y (p + 2 * dy) (by omega)]
    · have h0 : (x2 + 1 - x).toNat = 0 := by omega
      rw [h0]
      simp only [ENGINE_line_low_callsLoop, if_neg hx]

/-- The bound given by `ENGINE_line_high_calls` is enough, as for the low variant. -/
theorem ENGINE_line_high_callsLoop_fuel (xi dx dy y2 : Int) (n : Nat) (x y p : Int)
    (h : (y2 + 1 - y).toNat ≤ n) :
    ENGINE_line_high_callsLoop xi dx dy y2 n x y p =
      ENGINE_line_high_callsLoop xi dx dy y2 (y2 + 1 - y).toNat x y p := by
  induction n generalizing x y p with
  | zero =>
    have h0 : (y2 + 1 - y).toNat = 0 := by omega
    rw [h0]
  | succ n ih =>
    by_cases hy : y ≤ y2
    · have hs : (y2 + 1 - y).toNat = (y2 + 1 - (y + 1)).toNat + 1 := by omega
      rw [hs]
      simp only [ENGINE_line_high_callsLoop, if_pos hy]
      rw [ih (x + xi) (y + 1) (p - 2 * dy) (by omega), ih x (y + 1) (p + 2 * dx) (by omega)]
    · have h0 : (y2 + 1 - y).toNat = 0 := by omega
      rw [h0]
      simp only [ENGINE_line_high_callsLoop, if_neg hy]

/-- The loop of `ENGINE_line_low` ends by its guard: any bound from the one given by
`ENGINE_line_low` upwards yields the same canvas. -/
theorem ENGINE_line_low_loop_fuel (yi dx dy x2 : Int) (c : Nat) (n : Nat) (e : ENGINE)
    (x y p : Int) (h : (x2 + 1 - x).toNat ≤ n) :
    ENGINE_line_low_loop yi dx dy x2 c n e x y p =
      ENGINE_line_low_loop yi dx dy x2 c (x2 + 1 - x).toNat e x y p := by
  rw [ENGINE_line_low_loop_eq_plot, ENGINE_line_low_loop_eq_plot,
    ENGINE_line_low_callsLoop_fuel yi dx dy x2 n x y p h]

/-- The loop of `ENGINE_line_high` ends by its guard, as for the low variant. -/
theorem ENGINE_line_high_loop_fuel (xi dx dy y2 : Int) (c : Nat) (n : Nat) (e : ENGINE)
    (x y p : Int) (h : (y2 + 1 - y).toNat ≤ n) :
    ENGINE_line_high_loop xi dx dy y2 c n e x y p =
      ENGINE_line_high_loop xi dx dy y2 c (y2 + 1 - y).toNat e x y p := by
  rw [ENGINE_line_high_loop_eq_plot, ENGINE_line_high_loop_eq_plot,
    ENGINE_line_high_callsLoop_fuel xi dx dy y2 n x y p h]

theorem ENGINE_line_low_calls_head (x1 y1 x2 y2 : Int) (h : x1 ≤ x2) :
    (ENGINE_line_low_calls x1 y1 x2 y2).head? = some (x1, y1) := by
  unfold ENGINE_line_low_calls
  have hs : (x2 + 1 - x1).toNat = (x2 - x1).toNat + 1 := by omega
  simp only [hs, ENGINE_line_low_callsLoop, if_pos h, List.head?_cons]

theorem ENGINE_line_high_calls_head (x1 y1 x2 y2 : Int) (h : y1 ≤ y2) :
    (ENGINE_line_high_calls x1 y1 x2 y2).head? = some (x1, y1) := by
  unfold ENGINE_line_high_calls
  have hs : (y2 + 1 - y1).toNat = (y2 - y1).toNat + 1 := by omega
  simp only [hs, ENGINE_line_high_callsLoop, if_pos h, List.head?_cons]

/-- The first call of `ENGINE_line` is on one of the two endpoints: the one with the
smaller coordinate on the major axis. -/
theorem ENGINE_line_calls_head (x1 y1 x2 y2 : Int) :
    (ENGINE_line_calls x1 y1 x2 y2).head? = some (x1, y1)
      ∨ (ENGINE_line_calls x1 y1 x2 y2).head? = some (x2, y2) := by
  unfold ENGINE_line_calls
  split
  · split
    · exact Or.inr (ENGINE_line_low_calls_head x2 y2 x1 y1 (by omega))
    · exact Or.inl (ENGINE_line_low_calls_head x1 y1 x2 y2 (by omega))
  · split
    · exact Or.inr (ENGINE_line_high_calls_head x2 y2 x1 y1 (by omega))
    · exact Or.inl (ENGINE_line_high_calls_head x1 y1 x2 y2 (by omega))

/-! ## Horizontal and vertical lines, and the order of the endpoints -/

theorem forRange_of_le {a b : Int} (h : b ≤ a) : forRange a b = [] := by
  unfold forRange
  have h0 : (b - a).toNat = 0 := by omega
  rw [h0]
  rfl

theorem forRange_cons {a b : Int} (h : a < b) : forRange a b = a :: forRange (a + 1) b := by
  unfold forRange
  have hs : (b - a).toNat = (b - (a + 1)).toNat + 1 := by omega
  rw [hs, List.range_succ_eq_map, List.map_cons, List.map_map]
  congr 1
  · simp
  · apply List.map_congr_left
    intro k _
    simp only [Function.comp, Nat.succ_eq_add_one, Nat.cast_add, Nat.cast_one]
    omega

/-- With `dy = 0` and a decision term that is not positive, the loop of
`ENGINE_line_low` stays on its row and visits every column up to `x2`. -/
theorem ENGINE_line_low_callsLoop_flat (yi dx x2 : Int) (n : Nat) (x y p : Int)
    (hp : p ≤ 0) (hn : n = (x2 + 1 - x).toNat) :
    ENGINE_line_low_callsLoop yi dx 0 x2 n x y p =
      (forRange x (x2 + 1)).map (fun i => (i, y)) := by
  induction n generalizing x with
  | zero =>
    rw [forRange_of_le (by omega)]
    rfl
  | succ n ih =>
    have hx : x ≤ x2 := by omega
    rw [forRange_cons (by omega)]
    simp only [ENGINE_line_low_callsLoop, if_pos hx, if_neg (not_lt.2 hp), List.map_cons]
    rw [show p + 2 * 0 = p by ring, ih (x + 1) (by omega)]

/-- With `dx = 0` and a decision term that is not positive, the loop of
`ENGINE_line_high` stays on its column and visits every row up to `y2`. -/
theorem ENGINE_line_high_callsLoop_flat (xi dy y2 : Int) (n : Nat) (x y p : Int)
    (hp : p ≤ 0) (hn : n = (y2 + 1 - y).toNat) :
    ENGINE_line_high_callsLoop xi 0 dy y2 n x y p =
      (forRange y (y2 + 1)).map (fun j => (x, j)) := by
  induction n generalizing y with
  | zero =>
    rw [forRange_of_le (by omega)]
    rfl
  | succ n ih =>
    have hy : y ≤ y2 := by omega
    rw [forRange_cons (by omega)]
    simp only [ENGINE_line_high_callsLoop, if_pos hy, if_neg (not_lt.2 hp), List.map_cons]
    rw [show p + 2 * 0 = p by ring, ih (y + 1) (by omega)]

theorem ENGINE_line_low_calls_flat (x1 x2 y : Int) (h : x1 ≤ x2) :
    ENGINE_line_low_calls x1 y x2 y = (forRange x1 (x2 + 1)).map (fun i => (i, y)) := by
  unfold ENGINE_line_low_calls
  simp only [sub_self, lt_irrefl, if_false]
  exact ENGINE_line_low_callsLoop_flat 1 (x2 - x1) x2 _ x1 y _ (by omega) rfl

theorem ENGINE_line_high_calls_flat (x y1 y2 : Int) (h : y1 ≤ y2) :
    ENGINE_line_high_calls x y1 x y2 = (forRange y1 (y2 + 1)).map (fun j => (x, j)) := by
  unfold ENGINE_line_high_calls
  simp only [sub_self, lt_irrefl, if_false]
  exact ENGINE_line_high_callsLoop_flat 1 (y2 - y1) y2 _ x y1 _ (by omega) rfl

/-- The calls of a horizontal line: every column between the endpoints, once, in
increasing order. -/
theorem ENGINE_line_calls_horizontal (x1 x2 y : Int) :
    ENGINE_line_calls x1 y x2 y =
      (forRange (min x1 x2) (max x1 x2 + 1)).map (fun i => (i, y)) := by
  unfold ENGINE_line_calls
  simp only [sub_self, Int.natAbs_zero]
  by_cases hne : 0 < (x2 - x1).natAbs
  · rw [if_pos hne]
    by_cases hgt : x1 > x2
    · rw [if_pos hgt, ENGINE_line_low_calls_flat x2 x1 y (by omega),
        min_eq_right (by omega), max_eq_left (by omega)]
    · rw [if_neg hgt, ENGINE_line_low_calls_flat x1 x2 y (by omega),
        min_eq_left (by omega), max_eq_right (by omega)]
  · have hx : x1 = x2 := by omega
    subst hx
    rw [if_neg hne, if_neg (lt_irrefl _), ENGINE_line_high_calls_flat x1 y y le_rfl,
      min_self, max_self, forRange_cons (by omega), forRange_of_le le_rfl,
      forRange_cons (by omega), forRange_of_le le_rfl]
    rfl

/-- The calls of a vertical line: every row between the endpoints, once, in
increasing order. -/
theorem ENGINE_line_calls_vertical (x y1 y2 : Int) :
    ENGINE_line_calls x y1 x y2 =
      (forRange (min y1 y2) (max y1 y2 + 1)).map (fun j => (x, j)) := by
  unfold ENGINE_line_calls
  simp only [sub_self, Int.natAbs_zero, Nat.not_lt_zero, if_false]
  by_cases hgt : y1 > y2
  · rw [if_pos hgt, ENGINE_line_high_calls_flat x y2 y1 (by omega),
      min_eq_right (by omega), max_eq_left (by omega)]
  · rw [if_neg hgt, ENGINE_line_high_calls_flat x y1 y2 (by omega),
      min_eq_left (by omega), max_eq_right (by omega)]

/-- Exchanging the endpoints does not change the calls of `ENGINE_line`. -/
theorem ENGINE_line_calls_comm (x1 y1 x2 y2 : Int) :
    ENGINE_line_calls x1 y1 x2 y2 = ENGINE_line_calls x2 y2 x1 y1 := by
  have hy : (y1 - y2).natAbs = (y2 - y1).natAbs := by omega
  have hx : (x1 - x2).natAbs = (x2 - x1).natAbs := by omega
  unfold ENGINE_line_calls
  rw [hy, hx]
  by_cases hlow : (y2 - y1).natAbs < (x2 - x1).natAbs
  · simp only [if_pos hlow]
    by_cases hgt : x1 > x2
    · rw [if_pos hgt, if_neg (by omega)]
    · rw [if_neg hgt, if_pos (by omega)]
  · simp only [if_neg hlow]
    by_cases hgt : y1 > y2
    · rw [if_pos hgt, if_neg (by omega)]
    · rw [if_neg hgt]
      by_cases hlt : y2 > y1
      · rw [if_pos hlt]
      · have e1 : y1 = y2 := by omega
        have e2 : x1 = x2 := by omega
        rw [if_neg hlt, e1, e2]

/-- A canvas cell after a sequence of calls with an opaque colour. -/
theorem plot_cell_overwrite (e : ENGINE) (hwf : e.wellFormed) (c : Nat) (hc : alphaOf c = 255)
    (l : List (Int × Int)) (x y : Int) (hx0 : 0 ≤ x) (hx : x < e.width) (hy0 : 0 ≤ y)
    (hy : y < e.height) :
    (plot e c l).cell x y = if (x, y) ∈ l then c else e.cell x y := by
  induction l generalizing e with
  | nil => simp [plot_nil]
  | cons p l ih =>
    rw [plot_cons, ih (ENGINE_pset e p.1 p.2 c) (ENGINE_pset_wellFormed e _ _ c hwf)
      (by rw [ENGINE_pset_width]; exact hx) (by rw [ENGINE_pset_height]; exact hy),
      ENGINE_pset_cell e hwf p.1 p.2 c x y hx0 hx hy0 hy]
    by_cases heq : p = (x, y)
    · subst heq
      simp [ psetValue_opaque c _ hc]
    · have h2 : ¬ ((p.1, p.2) = (x, y)) := heq
      have h3 : (x, y) ∈ p :: l ↔ (x, y) ∈ l := by
        rw [List.mem_cons]
        exact ⟨fun h => h.resolve_left (fun h1 => heq h1.symm), Or.inr⟩
      simp only [if_neg h2, h3]

theorem ENGINE_rect_eq_plot (e : ENGINE) (x y w h : Int) (c : Nat) :
    ENGINE_rect e x y w h c = plot e c (ENGINE_rect_calls x y w h) := by
  unfold ENGINE_rect ENGINE_rect_calls
  simp only [ENGINE_line_eq_plot, plot_append]

/-! ## The filled rectangle -/

theorem mem_forRange {a b i : Int} : i ∈ forRange a b ↔ a ≤ i ∧ i < b := by
  unfold forRange
  simp only [List.mem_map, List.mem_range]
  constructor
  · rintro ⟨k, hk, rfl⟩
    omega
  · rintro ⟨h1, h2⟩
    exact ⟨(i - a).toNat, by omega, by omega⟩

theorem nodup_forRange (a b : Int) : (forRange a b).Nodup := by
  unfold forRange
  refine List.Nodup.map ?_ (List.nodup_range _)
  intro k1 k2 hk
  simp only at hk
  omega

theorem mem_map_row {a b y i j : Int} :
    (i, j) ∈ (forRange a b).map (fun k => (k, y)) ↔ j = y ∧ a ≤ i ∧ i < b := by
  simp only [List.mem_map, mem_forRange, Prod.mk.injEq]
  constructor
  · rintro ⟨k, hk, rfl, rfl⟩
    exact ⟨rfl, hk⟩
  · rintro ⟨rfl, hk⟩
    exact ⟨i, hk, rfl, rfl⟩

theorem mem_map_col {a b x i j : Int} :
    (i, j) ∈ (forRange a b).map (fun k => (x, k)) ↔ i = x ∧ a ≤ j ∧ j < b := by
  simp only [List.mem_map, mem_forRange, Prod.mk.injEq]
  constructor
  · rintro ⟨k, hk, rfl, rfl⟩
    exact ⟨rfl, hk⟩
  · rintro ⟨rfl, hk⟩
    exact ⟨j, hk, rfl, rfl⟩

theorem nodup_map_row (a b y : Int) : ((forRange a b).map (fun k => (k, y))).Nodup :=
  List.Nodup.map (fun _ _ h => (Prod.mk.inj h).1) (nodup_forRange a b)

theorem nodup_map_col (a b x : Int) : ((forRange a b).map (fun k => (x, k))).Nodup :=
  List.Nodup.map (fun _ _ h => (Prod.mk.inj h).2) (nodup_forRange a b)

/-- The calls of `ENGINE_rect` for `w, h >= 1` are the cells on the perimeter of
`[x, x+w-1] x [y, y+h-1]`. -/
theorem mem_ENGINE_rect_calls (x y w h i j : Int) (hw : 1 ≤ w) (hh : 1 ≤ h) :
    (i, j) ∈ ENGINE_rect_calls x y w h ↔
      (x ≤ i ∧ i ≤ x + w - 1 ∧ y ≤ j ∧ j ≤ y + h - 1)
        ∧ (i = x ∨ i = x + w - 1 ∨ j = y ∨ j = y + h - 1) := by
  unfold ENGINE_rect_calls
  simp only [List.mem_append, ENGINE_line_calls_horizontal, ENGINE_line_calls_vertical,
    mem_map_row, mem_map_col]
  omega

theorem mid_zero_eq {n : Int} (hn : 0 ≤ n) (x : Int) : mid 0 x n = max 0 (min x n) := by
  unfold mid
  omega

/-- The calls of `ENGINE_rectfill` are the cells of `[x, x+w) x [y, y+h)` that lie in
the canvas. -/
theorem mem_ENGINE_rectfill_calls (e : ENGINE) (hw : e.width < 2 ^ 31)
    (hh : e.height < 2 ^ 31) (x y w h i j : Int) :
    (i, j) ∈ ENGINE_rectfill_calls e x y w h ↔
      (x ≤ i ∧ i < x + w ∧ y ≤ j ∧ j < y + h)
        ∧ (0 ≤ i ∧ i < e.width ∧ 0 ≤ j ∧ j < e.height) := by
  unfold ENGINE_rectfill_calls
  simp only [toI32_of_lt hw, toI32_of_lt hh, List.mem_flatMap, List.mem_map, mem_forRange,
    Prod.mk.injEq]
  have hw0 : (0 : Int) ≤ e.width := Int.natCast_nonneg _
  have hh0 : (0 : Int) ≤ e.height := Int.natCast_nonneg _
  rw [mid_zero_eq hw0, mid_zero_eq hw0, mid_zero_eq hh0, mid_zero_eq hh0]
  constructor
  · rintro ⟨j1, hj, i1, hi, rfl, rfl⟩
    omega
  · intro hij
    exact ⟨j, by omega, i, by omega, rfl, rfl⟩

theorem nodup_ENGINE_rectfill_calls (e : ENGINE) (x y w h : Int) :
    (ENGINE_rectfill_calls e x y w h).Nodup := by
  unfold ENGINE_rectfill_calls
  simp only
  rw [List.nodup_flatMap]
  constructor
  · intro j _
    refine List.Nodup.map ?_ (nodup_forRange _ _)
    intro a b hab
    exact (Prod.mk.inj hab).1
  · refine List.Pairwise.imp ?_ (nodup_forRange _ _)
    intro j1 j2 hne
    show List.Disjoint _ _
    intro p hp1 hp2
    obtain ⟨i1, _, rfl⟩ := List.mem_map.1 hp1
    obtain ⟨i2, _, h2⟩ := List.mem_map.1 hp2
    exact hne (Prod.mk.inj h2).2.symm

theorem plot_filter_map (e : ENGINE) (c : Nat) (l : List Nat) (keep : Nat → Bool)
    (f : Nat → Int × Int) :
    l.foldl (fun e1 i => if keep i then ENGINE_pset e1 (f i).1 (f i).2 c else e1) e =
      plot e c ((l.filter keep).map f) := by
  induction l generalizing e with
  | nil => rfl
  | cons i l ih =>
    rw [List.foldl_cons, ih, List.filter_cons]
    cases hk : keep i
    · simp
    · simp [plot_cons]

theorem plot_rows_filter_map (e : ENGINE) (c : Nat) (rows cols : List Nat)
    (keep : Nat → Nat → Bool) (f : Nat → Nat → Int × Int) :
    rows.foldl
        (fun (e0 : ENGINE) (j : Nat) =>
          cols.foldl
            (fun (e1 : ENGINE) (i : Nat) =>
              if keep j i then ENGINE_pset e1 (f j i).1 (f j i).2 c else e1)
            e0)
        e =
      plot e c (rows.flatMap (fun (j : Nat) => (cols.filter (keep j)).map (f j))) := by
  induction rows generalizing e with
  | nil => rfl
  | cons j rows ih =>
    rw [List.foldl_cons, ih, List.flatMap_cons, plot_append]
    congr 1
    exact plot_filter_map e c cols (keep j) (f j)

theorem ENGINE_print_glyph_eq_plot (e : ENGINE) (glyph : Nat → Nat) (x y cursor : Int)
    (c : Nat) :
    ENGINE_print_glyph e glyph x y cursor c =
      plot e c (ENGINE_print_glyph_calls glyph x y cursor) :=
  plot_rows_filter_map e c (List.range 8) (List.range 8) (fun j i => glyphBit glyph j i)
    (fun j i => (x + cursor + (i : Int), y + (j : Int)))

theorem ENGINE_print_loop_eq_plot (font : Nat → Nat → Nat) (x y : Int) (c : Nat)
    (text : List Nat) (e : ENGINE) (cursor : Int) :
    ENGINE_print_loop font x y c text e cursor =
      plot e c (ENGINE_print_callsLoop font x y text cursor) := by
  induction text generalizing e cursor with
  | nil => rfl
  | cons ch rest ih =>
    simp only [ENGINE_print_loop, ENGINE_print_callsLoop]
    split
    · rfl
    · rw [ih, plot_append, ENGINE_print_glyph_eq_plot]

/-- The canvas after `ENGINE_print` is the canvas after its calls, made in order. -/
theorem ENGINE_print_eq_plot (e : ENGINE) (font : Nat → Nat → Nat) (text : List Nat)
    (x y : Int) (c : Nat) :
    ENGINE_print e font text x y c = plot e c (ENGINE_print_calls font text x y) :=
  ENGINE_print_loop_eq_plot font x y c text e 0

/-- The calls of the outer loop of `ENGINE_print`: the glyphs of the characters before
the first newline glyph, each 8 columns to the right of the one before. -/
theorem ENGINE_print_callsLoop_eq (font : Nat → Nat → Nat) (x y : Int) (text : List Nat)
    (h128 : ∀ ch ∈ text, ch < 128) (cursor : Int) :
    ENGINE_print_callsLoop font x y text cursor =
      (List.range (printStop font text)).flatMap
        (fun k => ENGINE_print_glyph_calls (glyphRow font (text.getD k 0)) x y
          (cursor + 8 * (k : Int))) := by
  induction text generalizing cursor with
  | nil => rfl
  | cons ch rest ih =>
    have hch : toU8 ch = ch :=
      Nat.mod_eq_of_lt (lt_trans (h128 ch (List.mem_cons_self _ _)) (by decide))
    have hrest : ∀ a ∈ rest, a < 128 := fun a ha => h128 a (List.mem_cons_of_mem _ ha)
    simp only [ENGINE_print_callsLoop, hch]
    unfold printStop
    rw [List.findIdx_cons]
    by_cases hnl : glyphRow font ch 0 = 10
    · simp [hnl]
    · rw [if_neg hnl, ih hrest]
      simp only [hnl, decide_False, cond_false]
      rw [List.range_succ_eq_map, List.flatMap_cons, List.flatMap_map]
      congr 1
      · simp
      · unfold printStop
        apply List.flatMap_congr
        intro k _
        simp only [Function.comp, Nat.succ_eq_add_one, List.getD_cons_succ, Nat.cast_add,
          Nat.cast_one]
        congr 1
        ring

theorem glyphBit_eq_testBit (glyph : Nat → Nat) (j i : Nat) :
    glyphBit glyph j i = (glyph j).testBit i := by
  unfold glyphBit toU8 Nat.testBit
  have h2 : (glyph j >>> i) % 2 < 2 := Nat.mod_lt _ (by decide)
  rw [Nat.and_one_is_mod, Nat.land_comm, Nat.and_one_is_mod,
    Nat.mod_eq_of_lt (lt_trans h2 (by decide))]
  rcases Nat.mod_two_eq_zero_or_one (glyph j >>> i) with h | h <;> simp [h]

theorem mem_ENGINE_print_glyph_calls (glyph : Nat → Nat) (x y cursor : Int) (p : Int × Int) :
    p ∈ ENGINE_print_glyph_calls glyph x y cursor ↔
      ∃ i j : Nat, i < 8 ∧ j < 8 ∧ (glyph j).testBit i = true
        ∧ p = (x + cursor + (i : Int), y + (j : Int)) := by
  unfold ENGINE_print_glyph_calls
  simp only [List.mem_flatMap, List.mem_map, List.mem_filter, List.mem_range,
    glyphBit_eq_testBit]
  constructor
  · rintro ⟨j, hj, i, ⟨hi, hb⟩, rfl⟩
    exact ⟨i, j, hi, hj, hb, rfl⟩
  · rintro ⟨i, j, hi, hj, hb, rfl⟩
    exact ⟨j, hj, i, ⟨hi, hb⟩, rfl⟩

/-! ## The screenshot -/

theorem pack_eq_sum {a b g r : Nat} (hb : b ≤ 255) (hg : g ≤ 255) (hr : r ≤ 255) :
    (a <<< 24) ||| (b <<< 16) ||| (g <<< 8) ||| r
      = a * 2 ^ 24 + b * 2 ^ 16 + g * 2 ^ 8 + r := by
  rw [Nat.lor_assoc, Nat.lor_assoc, Nat.shiftLeft_eq, Nat.shiftLeft_eq, Nat.shiftLeft_eq,
    Nat.mul_comm g, ← Nat.mul_add_lt_is_or (show r < 2 ^ 8 by omega) g,
    Nat.mul_comm b, ← Nat.mul_add_lt_is_or (show 2 ^ 8 * g + r < 2 ^ 16 by omega) b,
    Nat.mul_comm a, ← Nat.mul_add_lt_is_or (show 2 ^ 16 * b + (2 ^ 8 * g + r) < 2 ^ 24 by omega)
      a]
  omega

/-- The cell written by `ENGINE_takeScreenshot` keeps alpha and green and exchanges red
and blue. -/
theorem ENGINE_takeScreenshot_cell_eq (c : Nat) :
    ENGINE_takeScreenshot_cell c =
      (alphaOf c <<< 24) ||| (blueOf c <<< 16) ||| (greenOf c <<< 8) ||| redOf c := by
  have e8 : ∀ {n : Nat}, n ≤ 255 → toU8 n = n := fun h => Nat.mod_eq_of_lt (by omega)
  unfold ENGINE_takeScreenshot_cell
  simp only [alphaOf_eq]
  have hr : toU8 ((0x00FF0000 &&& c) >>> 16) = redOf c := e8 (redOf_le c)
  have hg : toU8 ((0x0000FF00 &&& c) >>> 8) = greenOf c := e8 (greenOf_le c)
  have hb : toU8 (0x000000FF &&& c) = blueOf c := e8 (blueOf_le c)
  rw [hr, hg, hb, e8 (alphaOf_le c)]
  exact Nat.mod_eq_of_lt (pack_lt (alphaOf_le c) (blueOf_le c) (greenOf_le c) (redOf_le c))

/-! ## Circles -/

theorem ENGINE_circle_loop_eq_plot (D : CircleDecision) (x0 y0 : Int) (c : Nat) (n : Nat)
    (e : ENGINE) (x y d : Int) :
    ENGINE_circle_loop D x0 y0 c n e x y d =
      plot e c ((ENGINE_circle_steps D n x y d).flatMap
        (fun s => ENGINE_circle_points x0 y0 s.1 s.2.1)) := by
  induction n generalizing e x y d with
  | zero => rfl
  | succ n ih =>
    simp only [ENGINE_circle_loop, ENGINE_circle_steps]
    split
    · split
      · rw [List.flatMap_cons, plot_append, ih]
        rfl
      · rw [List.flatMap_cons, plot_append, ih]
        rfl
    · rfl

theorem ENGINE_circle_filled_loop_eq_plot (D : CircleDecision) (x0 y0 : Int) (c : Nat)
    (n : Nat) (e : ENGINE) (x y d : Int) :
    ENGINE_circle_filled_loop D x0 y0 c n e x y d =
      plot e c ((ENGINE_circle_filled_steps D n x y d).flatMap
        (fun s => ENGINE_circle_spans x0 y0 s.1 s.2.1)) := by
  induction n generalizing e x y d with
  | zero => rfl
  | succ n ih =>
    simp only [ENGINE_circle_filled_loop, ENGINE_circle_filled_steps]
    split
    · split
      · rw [List.flatMap_cons, plot_append, ih]
        simp only [ENGINE_circle_spans, plot_append, ENGINE_line_eq_plot]
      · rw [List.flatMap_cons, plot_append, ih]
        simp only [ENGINE_circle_spans, plot_append, ENGINE_line_eq_plot]
    · rfl

/-- The canvas after `ENGINE_circle` is the canvas after its calls, made in order. -/
theorem ENGINE_circle_eq_plot (D : CircleDecision) (e : ENGINE) (x0 y0 r : Int) (c : Nat) :
    ENGINE_circle D e x0 y0 r c = plot e c (ENGINE_circle_calls D x0 y0 r) :=
  ENGINE_circle_loop_eq_plot D x0 y0 c _ e 0 r _

/-- The canvas after `ENGINE_circle_filled` is the canvas after its calls, in order. -/
theorem ENGINE_circle_filled_eq_plot (D : CircleDecision) (e : ENGINE) (x0 y0 r : Int)
    (c : Nat) :
    ENGINE_circle_filled D e x0 y0 r c = plot e c (ENGINE_circle_filled_calls D x0 y0 r) :=
  ENGINE_circle_filled_loop_eq_plot D x0 y0 c _ e 0 r _

theorem ENGINE_circle_steps_eq_filled (D : CircleDecision) (n : Nat) (x y d : Int) :
    ENGINE_circle_steps D n x y d = ENGINE_circle_filled_steps D n x y d := by
  induction n generalizing x y d with
  | zero => rfl
  | succ n ih =>
    simp only [ENGINE_circle_steps, ENGINE_circle_filled_steps, ih]

/-- The loop of the circle routines ends by its guard: any two bounds of at least
`y + 1 - x` give the same steps. -/
theorem ENGINE_circle_steps_fuel (D : CircleDecision) (n m : Nat) (x y d : Int)
    (hn : (y + 1 - x).toNat ≤ n) (hm : (y + 1 - x).toNat ≤ m) :
    ENGINE_circle_steps D n x y d = ENGINE_circle_steps D m x y d := by
  induction n generalizing m x y d with
  | zero =>
    have hgt : ¬ x ≤ y := by omega
    cases m with
    | zero => rfl
    | succ m => simp only [ENGINE_circle_steps, if_neg hgt]
  | succ n ih =>
    by_cases hxy : x ≤ y
    · cases m with
      | zero => omega
      | succ m =>
        simp only [ENGINE_circle_steps, if_pos hxy]
        rw [ih m (x + 1) y (D.inside d x) (by omega) (by omega),
          ih m (x + 1) (y - 1) (D.outside d x y) (by omega) (by omega)]
    · cases m with
      | zero => simp only [ENGINE_circle_steps, if_neg hxy]
      | succ m => simp only [ENGINE_circle_steps, if_neg hxy]

theorem ENGINE_circle_steps_length (D : CircleDecision) (n : Nat) (x y d : Int) :
    (ENGINE_circle_steps D n x y d).length ≤ n := by
  induction n generalizing x y d with
  | zero => simp [ENGINE_circle_steps]
  | succ n ih =>
    simp only [ENGINE_circle_steps]
    split
    · split
      · simp only [List.length_cons]
        exact Nat.succ_le_succ (ih _ _ _)
      · simp only [List.length_cons]
        exact Nat.succ_le_succ (ih _ _ _)
    · simp

/-- Every point of one iteration of `ENGINE_circle` lies on a span of the same
iteration of `ENGINE_circle_filled`. -/
theorem ENGINE_circle_points_subset_spans (x0 y0 x y : Int) (p : Int × Int)
    (hp : p ∈ ENGINE_circle_points x0 y0 x y) : p ∈ ENGINE_circle_spans x0 y0 x y := by
  obtain ⟨i, j⟩ := p
  unfold ENGINE_circle_points at hp
  unfold ENGINE_circle_spans
  simp only [List.mem_cons, List.mem_singleton, List.not_mem_nil, or_false,
    Prod.mk.injEq] at hp
  simp only [List.mem_append, ENGINE_line_calls_horizontal, mem_map_row]
  omega

theorem ENGINE_circle_steps_bounds (D : CircleDecision) (n : Nat) (x y d : Int)
    (s : Int × Int × Int) (hs : s ∈ ENGINE_circle_steps D n x y d) :
    x ≤ s.1 ∧ s.1 ≤ s.2.1 ∧ s.2.1 ≤ y := by
  induction n generalizing x y d with
  | zero => simp [ENGINE_circle_steps] at hs
  | succ n ih =>
    simp only [ENGINE_circle_steps] at hs
    split at hs
    · rename_i hxy
      rcases List.mem_cons.1 hs with rfl | hs
      · exact ⟨le_rfl, hxy, le_rfl⟩
      · split at hs
        · have := ih _ _ _ hs
          omega
        · have := ih _ _ _ hs
          omega
    · simp at hs

/-- The cells of the four spans of one iteration, for `0 <= x`, `0 <= y`. -/
theorem mem_ENGINE_circle_spans (x0 y0 x y : Int) (hx : 0 ≤ x) (hy : 0 ≤ y) (p : Int × Int) :
    p ∈ ENGINE_circle_spans x0 y0 x y ↔
      (p.2 = y0 + y ∧ x0 - x ≤ p.1 ∧ p.1 ≤ x0 + x)
        ∨ (p.2 = y0 + x ∧ x0 - y ≤ p.1 ∧ p.1 ≤ x0 + y)
        ∨ (p.2 = y0 - y ∧ x0 - x ≤ p.1 ∧ p.1 ≤ x0 + x)
        ∨ (p.2 = y0 - x ∧ x0 - y ≤ p.1 ∧ p.1 ≤ x0 + y) := by
  obtain ⟨i, j⟩ := p
  unfold ENGINE_circle_spans
  simp only [List.mem_append, ENGINE_line_calls_horizontal, mem_map_row]
  omega

theorem ENGINE_circle_calls_subset (D : CircleDecision) (x0 y0 r : Int) (p : Int × Int)
    (hp : p ∈ ENGINE_circle_calls D x0 y0 r) : p ∈ ENGINE_circle_filled_calls D x0 y0 r := by
  unfold ENGINE_circle_calls at hp
  unfold ENGINE_circle_filled_calls
  rw [← ENGINE_circle_steps_eq_filled]
  obtain ⟨s, hs, hps⟩ := List.mem_flatMap.1 hp
  exact List.mem_flatMap.2 ⟨s, hs, ENGINE_circle_points_subset_spans x0 y0 _ _ p hps⟩

/-! ## Ellipses -/

/-- The integer `ellipse_decision1` is four times the decision parameter of the source,
computed over the rationals. -/
theorem ellipse_decision1_eq (rxSquare rySquare rx2ry2 x y : Int) :
    ((ellipse_decision1 rxSquare rySquare rx2ry2 x y : Int) : ℚ) =
      4 * ((rySquare : ℚ) * ((x : ℚ) * x) + rxSquare * ((y : ℚ) - 1 / 2) ^ 2 - rx2ry2) := by
  unfold ellipse_decision1
  push_cast
  ring

/-- The integer `ellipse_decision2` is four times the decision parameter of the source,
computed over the rationals. -/
theorem ellipse_decision2_eq (rxSquare rySquare rx2ry2 x y : Int) :
    ((ellipse_decision2 rxSquare rySquare rx2ry2 x y : Int) : ℚ) =
      4 * ((rxSquare : ℚ) * ((y : ℚ) * y) + rySquare * ((x : ℚ) + 1 / 2) ^ 2 - rx2ry2) := by
  unfold ellipse_decision2
  push_cast
  ring

/-- With a divisor that is not zero, `ellipse_getRegion_lt_one` is the comparison of
the rational quotient of the source with 1. -/
theorem ellipse_getRegion_lt_one_iff (x y rx ry : Int) (hden : rx * rx * y ≠ 0) :
    ellipse_getRegion_lt_one x y rx ry = true ↔
      |((ry * ry * x : Int) : ℚ) / ((rx * rx * y : Int) : ℚ)| < 1 := by
  have hq : ((rx * rx * y : Int) : ℚ) ≠ 0 := Int.cast_ne_zero.2 hden
  have hpos : (0 : ℚ) < |((rx * rx * y : Int) : ℚ)| := abs_pos.2 hq
  unfold ellipse_getRegion_lt_one
  simp only [decide_eq_true_eq]
  rw [abs_div, div_lt_one hpos, ← Int.cast_abs, ← Int.cast_abs, Int.cast_lt,
    Int.abs_eq_natAbs, Int.abs_eq_natAbs, Int.ofNat_lt]
  exact ⟨fun h => h.2, fun h => ⟨hden, h⟩⟩

/-- With a zero divisor the test of the first loop fails. -/
theorem ellipse_getRegion_lt_one_zero (x y rx ry : Int) (hden : rx * rx * y = 0) :
    ellipse_getRegion_lt_one x y rx ry = false := by
  unfold ellipse_getRegion_lt_one
  simp [hden]

/-- While the test of the first loop holds at a state with `0 <= x` and
`0 <= y <= ry`, `y` is positive and `x` is below `rx * rx`. -/
theorem ellipse_getRegion_lt_one_bound {x y rx ry : Int} (hx : 0 ≤ x) (hy : 0 ≤ y)
    (hyr : y ≤ ry) (h : ellipse_getRegion_lt_one x y rx ry = true) :
    1 ≤ y ∧ x < rx * rx := by
  unfold ellipse_getRegion_lt_one at h
  simp only [decide_eq_true_eq] at h
  obtain ⟨hden, hlt⟩ := h
  have hy1 : 1 ≤ y := by
    rcases eq_or_lt_of_le hy with h0 | h0
    · exact absurd (by rw [← h0, mul_zero]) hden
    · omega
  refine ⟨hy1, ?_⟩
  by_contra hge
  have hge2 : rx * rx ≤ x := not_lt.1 hge
  have n1 : 0 ≤ ry * ry * x := mul_nonneg (mul_self_nonneg ry) hx
  have n2 : 0 ≤ rx * rx * y := mul_nonneg (mul_self_nonneg rx) hy
  have hlt2 : ry * ry * x < rx * rx * y := by omega
  have hA : ry * ry * (rx * rx) ≤ ry * ry * x :=
    mul_le_mul_of_nonneg_left hge2 (mul_self_nonneg ry)
  have hB : ry ≤ ry * ry := by nlinarith
  have hC : ry * (rx * rx) ≤ ry * ry * (rx * rx) :=
    mul_le_mul_of_nonneg_right hB (mul_self_nonneg rx)
  have hD : y * (rx * rx) ≤ ry * (rx * rx) :=
    mul_le_mul_of_nonneg_right hyr (mul_self_nonneg rx)
  have hE : rx * rx * y = y * (rx * rx) := by ring
  omega

/-- The first loop of `ENGINE_ellipsefill` ends by its guard when started with
`0 <= x` and `0 <= y <= ry`: any two bounds of at least `rx * rx - x` give the same
result. -/
theorem ENGINE_ellipsefill_loop1_fuel (rx ry rxSquare rySquare rx2ry2 xc yc : Int) (c : Nat)
    (n m : Nat) (e : ENGINE) (x y : Int) (hx : 0 ≤ x) (hy : 0 ≤ y) (hyr : y ≤ ry)
    (hn : (rx * rx - x).toNat ≤ n) (hm : (rx * rx - x).toNat ≤ m) :
    ENGINE_ellipsefill_loop1 rx ry rxSquare rySquare rx2ry2 xc yc c n e x y =
      ENGINE_ellipsefill_loop1 rx ry rxSquare rySquare rx2ry2 xc yc c m e x y := by
  induction n generalizing m e x y with
  | zero =>
    have htest : ¬ (ellipse_getRegion_lt_one x y rx ry = true) := by
      intro h
      have := (ellipse_getRegion_lt_one_bound hx hy hyr h).2
      omega
    cases m with
    | zero => rfl
    | succ m => simp only [ENGINE_ellipsefill_loop1, if_neg htest]
  | succ n ih =>
    by_cases htest : ellipse_getRegion_lt_one x y rx ry = true
    · obtain ⟨hy1, hxr⟩ := ellipse_getRegion_lt_one_bound hx hy hyr htest
      cases m with
      | zero => omega
      | succ m =>
        simp only [ENGINE_ellipsefill_loop1, if_pos htest]
        apply ih
        · omega
        · split <;> omega
        · split <;> omega
        · omega
        · omega
    · cases m with
      | zero => simp only [ENGINE_ellipsefill_loop1, if_neg htest]
      | succ m => simp only [ENGINE_ellipsefill_loop1, if_neg htest]

/-- The first loop of `ENGINE_ellipse` ends by its guard, as for the filled variant. -/
theorem ENGINE_ellipse_loop1_fuel (rx ry rxSquare rySquare rx2ry2 xc yc : Int) (c : Nat)
    (n m : Nat) (e : ENGINE) (x y : Int) (hx : 0 ≤ x) (hy : 0 ≤ y) (hyr : y ≤ ry)
    (hn : (rx * rx - x).toNat ≤ n) (hm : (rx * rx - x).toNat ≤ m) :
    ENGINE_ellipse_loop1 rx ry rxSquare rySquare rx2ry2 xc yc c n e x y =
      ENGINE_ellipse_loop1 rx ry rxSquare rySquare rx2ry2 xc yc c m e x y := by
  induction n generalizing m e x y with
  | zero =>
    have htest : ¬ (ellipse_getRegion_lt_one x y rx ry = true) := by
      intro h
      have := (ellipse_getRegion_lt_one_bound hx hy hyr h).2
      omega
    cases m with
    | zero => rfl
    | succ m => simp only [ENGINE_ellipse_loop1, if_neg htest]
  | succ n ih =>
    by_cases htest : ellipse_getRegion_lt_one x y rx ry = true
    · obtain ⟨hy1, hxr⟩ := ellipse_getRegion_lt_one_bound hx hy hyr htest
      cases m with
      | zero => omega
      | succ m =>
        simp only [ENGINE_ellipse_loop1, if_pos htest]
        apply ih
        · omega
        · split <;> omega
        · split <;> omega
        · omega
        · omega
    · cases m with
      | zero => simp only [ENGINE_ellipse_loop1, if_neg htest]
      | succ m => simp only [ENGINE_ellipse_loop1, if_neg htest]

/-- The second loop of `ENGINE_ellipsefill` ends by its guard: any two bounds of at
least `y` give the same result. -/
theorem ENGINE_ellipsefill_loop2_fuel (rxSquare rySquare rx2ry2 xc yc : Int) (c : Nat)
    (n m : Nat) (e : ENGINE) (x y : Int) (hn : y.toNat ≤ n) (hm : y.toNat ≤ m) :
    ENGINE_ellipsefill_loop2 rxSquare rySquare rx2ry2 xc yc c n e x y =
      ENGINE_ellipsefill_loop2 rxSquare rySquare rx2ry2 xc yc c m e x y := by
  induction n generalizing m e x y with
  | zero =>
    have hy : ¬ y > 0 := by omega
    cases m with
    | zero => rfl
    | succ m => simp only [ENGINE_ellipsefill_loop2, if_neg hy]
  | succ n ih =>
    by_cases hy : y > 0
    · cases m with
      | zero => omega
      | succ m =>
        simp only [ENGINE_ellipsefill_loop2, if_pos hy]
        exact ih m _ _ _ (by omega) (by omega)
    · cases m with
      | zero => simp only [ENGINE_ellipsefill_loop2, if_neg hy]
      | succ m => simp only [ENGINE_ellipsefill_loop2, if_neg hy]

/-- The second loop of `ENGINE_ellipse` ends by its guard. -/
theorem ENGINE_ellipse_loop2_fuel (rxSquare rySquare rx2ry2 xc yc : Int) (c : Nat)
    (n m : Nat) (e : ENGINE) (x y : Int) (hn : y.toNat ≤ n) (hm : y.toNat ≤ m) :
    ENGINE_ellipse_loop2 rxSquare rySquare rx2ry2 xc yc c n e x y =
      ENGINE_ellipse_loop2 rxSquare rySquare rx2ry2 xc yc c m e x y := by
  induction n generalizing m e x y with
  | zero =>
    have hy : ¬ y > 0 := by omega
    cases m with
    | zero => rfl
    | succ m => simp only [ENGINE_ellipse_loop2, if_neg hy]
  | succ n ih =>
    by_cases hy : y > 0
    · cases m with
      | zero => omega
      | succ m =>
        simp only [ENGINE_ellipse_loop2, if_pos hy]
        exact ih m _ _ _ (by omega) (by omega)
    · cases m with
      | zero => simp only [ENGINE_ellipse_loop2, if_neg hy]
      | succ m => simp only [ENGINE_ellipse_loop2, if_neg hy]

/-- The radii and the centre computed by `ENGINE_ellipse` do not depend on the order
of the corners. -/
theorem ENGINE_ellipse_radii_comm (x0 y0 x1 y1 : Int) :
    ENGINE_ellipse_radii x0 y0 x1 y1 = ENGINE_ellipse_radii x1 y1 x0 y0 := by
  have hx : (x1 - x0).natAbs = (x0 - x1).natAbs := by omega
  have hy : (y1 - y0).natAbs = (y0 - y1).natAbs := by omega
  unfold ENGINE_ellipse_radii
  simp only [hx, hy, min_comm x0 x1, min_comm y0 y1]

/-- `ENGINE_ellipse` draws the same for both orders of the corners. -/
theorem ENGINE_ellipse_comm (e : ENGINE) (x0 y0 x1 y1 : Int) (c : Nat) :
    ENGINE_ellipse e x0 y0 x1 y1 c = ENGINE_ellipse e x1 y1 x0 y0 c := by
  unfold ENGINE_ellipse
  rw [ENGINE_ellipse_radii_comm]

/-- With the corners `(0, 4)` and `(4, 0)`, hence `rx = 2` and `ry = -2`, the first loop
of `ENGINE_ellipsefill` has not ended after `n` iterations, whatever `n`: its test
holds at every state it reaches. -/
theorem ENGINE_ellipsefill_loop1_runs_on (xc yc : Int) (c : Nat) (n : Nat) (e : ENGINE)
    (k : Int) (hk : 0 ≤ k) :
    (ENGINE_ellipsefill_loop1 2 (-2) 4 4 16 xc yc c n e k (-2 - k)).2.1 = k + n := by
  induction n generalizing e k with
  | zero => simp [ENGINE_ellipsefill_loop1]
  | succ n ih =>
    have htest : ellipse_getRegion_lt_one k (-2 - k) 2 (-2) = true := by
      unfold ellipse_getRegion_lt_one
      simp only [decide_eq_true_eq]
      constructor <;> omega
    have hd : ellipse_decision1 4 4 16 (k + 1) (-2 - k) > 0 := by
      unfold ellipse_decision1
      nlinarith [mul_self_nonneg (k + 1), mul_self_nonneg k]
    simp only [ENGINE_ellipsefill_loop1, if_pos htest, if_pos hd]
    rw [show -2 - k - 1 = -2 - (k + 1) by ring, ih _ (k + 1) (by omega)]
    push_cast
    ring

/-! ## Claims on `ENGINE_pset` -/

/-- C1: on a well-formed canvas, for an in-bounds cell `(x, y)` and a colour `c` whose
alpha byte `a` satisfies `0 < a < 255`, `ENGINE_pset` stores at index `width * y + x`
the value `(a << 24) | (r << 16) | (g << 8) | b`, where each of `r`, `g`, `b` is the
exact quotient `(a * src + (255 - a) * dst) / 255` over the naturals, `src` being the
channel of `c` and `dst` the channel of the previous cell value; and none of the
`uint16_t` products or `uint8_t` quotients of the C code wraps. -/
theorem ENGINE_pset_blend_exact (e : ENGINE) (x y : Int) (c : Nat) (hwf : e.wellFormed)
    (hx0 : 0 ≤ x) (hx : x < e.width) (hy0 : 0 ≤ y) (hy : y < e.height)
    (ha0 : 0 < alphaOf c) (ha : alphaOf c < 255) :
    (ENGINE_pset e x y c).pixels[((e.width : Int) * y + x).toNat]? =
        some ((alphaOf c <<< 24)
          ||| (blendChannel (alphaOf c) (redOf c) (redOf (e.cell x y)) <<< 16)
          ||| (blendChannel (alphaOf c) (greenOf c) (greenOf (e.cell x y)) <<< 8)
          ||| blendChannel (alphaOf c) (blueOf c) (blueOf (e.cell x y)))
      ∧ noWrap (alphaOf c) (redOf c) (redOf (e.cell x y))
      ∧ noWrap (alphaOf c) (greenOf c) (greenOf (e.cell x y))
      ∧ noWrap (alphaOf c) (blueOf c) (blueOf (e.cell x y)) := by
  obtain ⟨hw, hh, hlen⟩ := hwf
  have hi : ((e.width : Int) * y + x).toNat < e.pixels.length := by
    rw [hlen]; exact cellIndex_lt hx0 hx hy0 hy
  have hale : alphaOf c ≤ 255 := alphaOf_le c
  have hsub : 255 - alphaOf c ≤ 255 := Nat.sub_le _ _
  have nw : ∀ s d : Nat, s ≤ 255 → d ≤ 255 → noWrap (alphaOf c) s d := by
    intro s d hs hd
    refine ⟨mul_byte_lt hsub hd, mul_byte_lt hale hs, ?_⟩
    have := blendChannel_le hale hs hd
    unfold blendChannel at this
    rw [Nat.add_comm]
    omega
  refine ⟨?_, nw _ _ (redOf_le c) (redOf_le _), nw _ _ (greenOf_le c) (greenOf_le _),
    nw _ _ (blueOf_le c) (blueOf_le _)⟩
  rw [ENGINE_pset_inside e x y c hw hh hx0 hx hy0 hy (by omega)]
  simp only [if_pos ha, List.getElem?_set_self hi, ENGINE_pset_blend_eq]

/-- Witness for C1: a translucent grey blended over an opaque cell of a 2x2 canvas. -/
theorem ENGINE_pset_blend_exact_witness :
    (ENGINE_pset ⟨2, 2, [0xFF102030, 0, 0, 0]⟩ 0 0 0x40808080).pixels[0]? =
      some ((0x40 <<< 24) ||| (blendChannel 0x40 0x80 0x10 <<< 16)
        ||| (blendChannel 0x40 0x80 0x20 <<< 8) ||| blendChannel 0x40 0x80 0x30) :=
  (ENGINE_pset_blend_exact ⟨2, 2, [0xFF102030, 0, 0, 0]⟩ 0 0 0x40808080 (by decide)
    (by decide) (by decide) (by decide) (by decide) (by decide) (by decide)).1

/-- C2: when `(x, y)` lies outside `[0, width) x [0, height)` (negative coordinates
included), `ENGINE_pset` returns the engine as it was: every cell of the buffer and
both stored dimensions are unchanged.  This holds for every colour. -/
theorem ENGINE_pset_outside_unchanged (e : ENGINE) (x y : Int) (c : Nat)
    (hout : ¬ (0 ≤ x ∧ x < e.width ∧ 0 ≤ y ∧ y < e.height)) :
    ENGINE_pset e x y c = e :=
  ENGINE_pset_clipped e x y c hout

/-- Witness for C2: an opaque colour at `(-1, 0)` and a 2x2 canvas. -/
theorem ENGINE_pset_outside_unchanged_witness :
    ENGINE_pset ⟨2, 2, [1, 2, 3, 4]⟩ (-1) 0 0xFFFFFFFF = ⟨2, 2, [1, 2, 3, 4]⟩ :=
  ENGINE_pset_outside_unchanged ⟨2, 2, [1, 2, 3, 4]⟩ (-1) 0 0xFFFFFFFF (by decide)

/-- C3: on a well-formed canvas, for an in-bounds `(x, y)` and a colour `c` whose alpha
byte is 255, the cell at index `width * y + x` holds exactly `c` after
`ENGINE_pset`, whatever it held before. -/
theorem ENGINE_pset_opaque_overwrites (e : ENGINE) (x y : Int) (c : Nat)
    (hwf : e.wellFormed) (hx0 : 0 ≤ x) (hx : x < e.width) (hy0 : 0 ≤ y) (hy : y < e.height)
    (ha : alphaOf c = 255) :
    (ENGINE_pset e x y c).pixels[((e.width : Int) * y + x).toNat]? = some c := by
  obtain ⟨hw, hh, hlen⟩ := hwf
  have hi : ((e.width : Int) * y + x).toNat < e.pixels.length := by
    rw [hlen]; exact cellIndex_lt hx0 hx hy0 hy
  rw [ENGINE_pset_inside e x y c hw hh hx0 hx hy0 hy (by omega)]
  simp only [ha, lt_irrefl, if_false, List.getElem?_set_self hi]

/-- Witness for C3: opaque white at `(1, 1)` of a 2x2 canvas. -/
theorem ENGINE_pset_opaque_overwrites_witness :
    (ENGINE_pset ⟨2, 2, [1, 2, 3, 4]⟩ 1 1 0xFFFFFFFF).pixels[3]? = some 0xFFFFFFFF :=
  ENGINE_pset_opaque_overwrites ⟨2, 2, [1, 2, 3, 4]⟩ 1 1 0xFFFFFFFF (by decide) (by decide)
    (by decide) (by decide) (by decide) (by decide)

/-- C4: for a colour whose alpha byte is 0, `ENGINE_pset` returns the canvas
unchanged, for every `(x, y)`, in or out of bounds, and every destination value. -/
theorem ENGINE_pset_transparent_noop (e : ENGINE) (x y : Int) (c : Nat)
    (ha : alphaOf c = 0) : ENGINE_pset e x y c = e :=
  ENGINE_pset_transparent e x y c ha

/-- Witness for C4: a colour with alpha byte 0 at an in-bounds cell. -/
theorem ENGINE_pset_transparent_noop_witness :
    ENGINE_pset ⟨2, 2, [1, 2, 3, 4]⟩ 1 1 0x00FFFFFF = ⟨2, 2, [1, 2, 3, 4]⟩ :=
  ENGINE_pset_transparent_noop ⟨2, 2, [1, 2, 3, 4]⟩ 1 1 0x00FFFFFF (by decide)

/-- C5, as stated, fails: on a 6x6 canvas whose cells all hold `0xFFFF0000`, after
`ENGINE_pset(5, 5, 0x80000000)` the red channel of cell `(5, 5)` is not 126. -/
theorem ENGINE_pset_half_black_red_not_126 :
    ¬ (redOf ((ENGINE_pset ⟨6, 6, List.replicate 36 0xFFFF0000⟩ 5 5 0x80000000).cell 5 5)
        = 126) := by
  decide

/-- C5, amended: on a well-formed canvas containing `(5, 5)` whose cell `(5, 5)` holds
`0xFFFF0000`, `ENGINE_pset(5, 5, 0x80000000)` leaves `0x807F0000` in that cell:
alpha 128, red `(128 * 0 + 127 * 255) / 255 = 127`, green 0, blue 0. -/
theorem ENGINE_pset_half_black_over_red (e : ENGINE) (hwf : e.wellFormed)
    (hw5 : 5 < e.width) (hh5 : 5 < e.height)
    (hcell : e.pixels[e.width * 5 + 5]? = some 0xFFFF0000) :
    (ENGINE_pset e 5 5 0x80000000).pixels[e.width * 5 + 5]? = some 0x807F0000
      ∧ alphaOf 0x807F0000 = 128 ∧ redOf 0x807F0000 = 127
      ∧ greenOf 0x807F0000 = 0 ∧ blueOf 0x807F0000 = 0
      ∧ blendChannel 128 0 255 = 127 := by
  obtain ⟨hw, hh, hlen⟩ := hwf
  have hidx : ((e.width : Int) * 5 + 5).toNat = e.width * 5 + 5 := by
    rw [cellIndex_toNat e.width (by decide) (by decide)]; rfl
  have hi : e.width * 5 + 5 < e.pixels.length := by
    rw [← hidx, hlen]
    exact cellIndex_lt (by decide) (by exact_mod_cast hw5) (by decide) (by exact_mod_cast hh5)
  have hcur : e.cell 5 5 = 0xFFFF0000 := by
    unfold ENGINE.cell
    rw [hidx, List.getD_eq_getElem?_getD, hcell]
    rfl
  refine ⟨?_, by decide, by decide, by decide, by decide, by decide⟩
  rw [ENGINE_pset_inside e 5 5 0x80000000 hw hh (by decide) (by exact_mod_cast hw5)
    (by decide) (by exact_mod_cast hh5) (by decide)]
  simp only [hidx, hcur, List.getElem?_set_self hi]
  decide

/-- Witness for the amended C5: a 6x6 canvas filled with opaque red. -/
theorem ENGINE_pset_half_black_over_red_witness :
    (ENGINE_pset ⟨6, 6, List.replicate 36 0xFFFF0000⟩ 5 5 0x80000000).pixels[6 * 5 + 5]? =
      some 0x807F0000 :=
  (ENGINE_pset_half_black_over_red ⟨6, 6, List.replicate 36 0xFFFF0000⟩ (by decide)
    (by decide) (by decide) (by decide)).1

/-! ## Claims on `ENGINE_line` -/

/-- C6, the code at a failing input: `ENGINE_line(0, 0, 2, 2, c)` passes exactly the
cells `(0,0), (1,1), (1,2)` to `ENGINE_pset`, so the endpoint `(2, 2)` is not plotted;
on a 3x3 canvas of zero cells, drawing that line in opaque white leaves cell `(2, 2)`
at zero. -/
theorem ENGINE_line_misses_endpoint :
    ENGINE_line_calls 0 0 2 2 = [(0, 0), (1, 1), (1, 2)]
      ∧ (2, 2) ∉ ENGINE_line_calls 0 0 2 2
      ∧ (ENGINE_line ⟨3, 3, List.replicate 9 0⟩ 0 0 2 2 0xFFFFFFFF).cell 2 2 = 0 := by
  decide

/-- C7, the code at failing inputs: for the low-slope line from `(0,0)` to `(3,2)` the
cell plotted in column 3 is `(3,1)`, one whole row away from the ideal line, and for
the steep line from `(0,0)` to `(2,2)` the cell plotted in row 2 is `(1,2)`, one whole
column away; neither meets the rounding condition of Bresenham rasterisation. -/
theorem ENGINE_line_not_nearest :
    ENGINE_line_calls 0 0 3 2 = [(0, 0), (1, 1), (2, 1), (3, 1)]
      ∧ ¬ withinHalf 0 0 3 2 3 1
      ∧ ENGINE_line_calls 0 0 2 2 = [(0, 0), (1, 1), (1, 2)]
      ∧ ¬ withinHalf 0 0 2 2 2 1 := by
  decide

/-- C8: the calls of `ENGINE_line(0, 0, 3, 1, c)` are exactly
`(0,0), (1,0), (2,1), (3,1)`, in that order; on a well-formed canvas of at least 4x2
cells and with an opaque colour `c`, each of these four cells holds `c` afterwards,
every other cell keeps its value, and the dimensions are unchanged. -/
theorem ENGINE_line_0_0_3_1 (e : ENGINE) (hwf : e.wellFormed) (hw4 : 4 ≤ e.width)
    (hh2 : 2 ≤ e.height) (c : Nat) (hc : alphaOf c = 255) :
    ENGINE_line_calls 0 0 3 1 = [(0, 0), (1, 0), (2, 1), (3, 1)]
      ∧ (ENGINE_line e 0 0 3 1 c).width = e.width
      ∧ (ENGINE_line e 0 0 3 1 c).height = e.height
      ∧ (ENGINE_line e 0 0 3 1 c).pixels.length = e.pixels.length
      ∧ (∀ p ∈ [((0 : Int), (0 : Int)), (1, 0), (2, 1), (3, 1)],
          (ENGINE_line e 0 0 3 1 c).cell p.1 p.2 = c)
      ∧ ∀ x y : Int, 0 ≤ x → x < e.width → 0 ≤ y → y < e.height →
          (x, y) ∉ [((0 : Int), (0 : Int)), (1, 0), (2, 1), (3, 1)] →
          (ENGINE_line e 0 0 3 1 c).cell x y = e.cell x y := by
  have hcalls : ENGINE_line_calls 0 0 3 1 = [(0, 0), (1, 0), (2, 1), (3, 1)] := by decide
  have hcell : ∀ x y : Int, 0 ≤ x → x < e.width → 0 ≤ y → y < e.height →
      (ENGINE_line e 0 0 3 1 c).cell x y =
        if (x, y) ∈ [((0 : Int), (0 : Int)), (1, 0), (2, 1), (3, 1)] then c
        else e.cell x y := by
    intro x y hx0 hx hy0 hy
    rw [ENGINE_line_eq_plot, hcalls, plot_cell_nodup e hwf c _ (by decide) x y hx0 hx hy0 hy,
      psetValue_opaque c _ hc]
  rw [ENGINE_line_eq_plot]
  refine ⟨hcalls, plot_width _ _ _, plot_height _ _ _, plot_length _ _ _, ?_, ?_⟩
  · intro p hp
    have hb : 0 ≤ p.1 ∧ p.1 < 4 ∧ 0 ≤ p.2 ∧ p.2 < 2 := by
      simp only [List.mem_cons, List.mem_singleton, List.not_mem_nil, or_false] at hp
      rcases hp with rfl | rfl | rfl | rfl <;> decide
    rw [← ENGINE_line_eq_plot, hcell p.1 p.2 hb.1 (by omega) hb.2.2.1 (by omega), if_pos hp]
  · intro x y hx0 hx hy0 hy hnot
    rw [← ENGINE_line_eq_plot, hcell x y hx0 hx hy0 hy, if_neg hnot]

/-- Witness for C8: opaque white on a 4x2 canvas of zero cells. -/
theorem ENGINE_line_0_0_3_1_witness :
    ENGINE_line_calls 0 0 3 1 = [(0, 0), (1, 0), (2, 1), (3, 1)]
      ∧ (ENGINE_line ⟨4, 2, List.replicate 8 0⟩ 0 0 3 1 0xFFFFFFFF).cell 2 1 = 0xFFFFFFFF :=
  have h := ENGINE_line_0_0_3_1 ⟨4, 2, List.replicate 8 0⟩ (by decide) (by decide) (by decide)
    0xFFFFFFFF (by decide)
  ⟨h.1, h.2.2.2.2.1 (2, 1) (by decide)⟩

/-! ## Claims on `ENGINE_rectfill` and `ENGINE_canvasResize` -/

/-- C9: on a well-formed canvas and for all integers `x, y, w, h`, every cell that
`ENGINE_rectfill` passes to `ENGINE_pset` lies in the canvas; the cells passed are
exactly those of `[x, x+w) x [y, y+h)` that lie in the canvas, each passed once;
afterwards each such cell holds the value one `ENGINE_pset` leaves there, every other
cell keeps its value, and the dimensions are unchanged (`mid` being the median). -/
theorem ENGINE_rectfill_exact (e : ENGINE) (hwf : e.wellFormed) (x y w h : Int) (c : Nat) :
    (∀ p ∈ ENGINE_rectfill_calls e x y w h,
        0 ≤ p.1 ∧ p.1 < e.width ∧ 0 ≤ p.2 ∧ p.2 < e.height)
      ∧ (∀ i j : Int, (i, j) ∈ ENGINE_rectfill_calls e x y w h ↔
          (x ≤ i ∧ i < x + w ∧ y ≤ j ∧ j < y + h)
            ∧ (0 ≤ i ∧ i < e.width ∧ 0 ≤ j ∧ j < e.height))
      ∧ (ENGINE_rectfill_calls e x y w h).Nodup
      ∧ (ENGINE_rectfill e x y w h c).width = e.width
      ∧ (ENGINE_rectfill e x y w h c).height = e.height
      ∧ (ENGINE_rectfill e x y w h c).pixels.length = e.pixels.length
      ∧ ∀ i j : Int, 0 ≤ i → i < e.width → 0 ≤ j → j < e.height →
          (ENGINE_rectfill e x y w h c).cell i j =
            if x ≤ i ∧ i < x + w ∧ y ≤ j ∧ j < y + h then psetValue c (e.cell i j)
            else e.cell i j := by
  have hmem := mem_ENGINE_rectfill_calls e hwf.1 hwf.2.1 x y w h
  rw [ENGINE_rectfill_eq_plot]
  refine ⟨?_, hmem, nodup_ENGINE_rectfill_calls e x y w h, plot_width _ _ _,
    plot_height _ _ _, plot_length _ _ _, ?_⟩
  · rintro ⟨i, j⟩ hp
    exact ((hmem i j).1 hp).2
  · intro i j hi0 hi hj0 hj
    rw [plot_cell_nodup e hwf c _ (nodup_ENGINE_rectfill_calls e x y w h) i j hi0 hi hj0 hj]
    by_cases hin : x ≤ i ∧ i < x + w ∧ y ≤ j ∧ j < y + h
    · rw [if_pos ((hmem i j).2 ⟨hin, hi0, hi, hj0, hj⟩), if_pos hin]
    · rw [if_neg (fun hm => hin ((hmem i j).1 hm).1), if_neg hin]

/-- Witness for C9: a rectangle overlapping the top-left corner of a 3x2 canvas. -/
theorem ENGINE_rectfill_exact_witness :
    (ENGINE_rectfill_calls ⟨3, 2, List.replicate 6 0⟩ (-1) (-1) 3 5).Nodup
      ∧ (ENGINE_rectfill ⟨3, 2, List.replicate 6 0⟩ (-1) (-1) 3 5 0xFF000000).width = 3 :=
  have h := ENGINE_rectfill_exact ⟨3, 2, List.replicate 6 0⟩ (by decide) (-1) (-1) 3 5
    0xFF000000
  ⟨h.2.2.1, h.2.2.2.1⟩

/-- C11: `ENGINE_canvasResize` called with the current width and the current height
returns true and leaves width, height and every pixel cell unchanged, for every fill
colour and whatever the external calls would have done. -/
theorem ENGINE_canvasResize_same_size (e : ENGINE) (color : Nat) (texture : Bool)
    (realloc : Option (List Nat)) :
    ENGINE_canvasResize e e.width e.height color texture realloc = (e, true) := by
  unfold ENGINE_canvasResize
  rw [if_pos ⟨rfl, rfl⟩]

/-- C18: for all integers `x1, x2, y` the calls of `ENGINE_line(x1, y, x2, y, c)` are
the cells `(x, y)` with `min x1 x2 <= x <= max x1 x2`, each once and no other cell;
for all `x, y1, y2` the calls of `ENGINE_line(x, y1, x, y2, c)` are the cells `(x, j)`
with `min y1 y2 <= j <= max y1 y2`, each once and no other cell; a single point is
plotted once.  The canvas after the line is the canvas after these calls. -/
theorem ENGINE_line_axis_aligned (x1 x2 y x y1 y2 : Int) :
    ((∀ p : Int × Int, p ∈ ENGINE_line_calls x1 y x2 y ↔
          p.2 = y ∧ min x1 x2 ≤ p.1 ∧ p.1 ≤ max x1 x2)
        ∧ (ENGINE_line_calls x1 y x2 y).Nodup)
      ∧ ((∀ p : Int × Int, p ∈ ENGINE_line_calls x y1 x y2 ↔
          p.1 = x ∧ min y1 y2 ≤ p.2 ∧ p.2 ≤ max y1 y2)
        ∧ (ENGINE_line_calls x y1 x y2).Nodup)
      ∧ ENGINE_line_calls x y x y = [(x, y)]
      ∧ ENGINE_line_calls x1 y x2 y
          = (forRange (min x1 x2) (max x1 x2 + 1)).map (fun i => (i, y))
      ∧ ENGINE_line_calls x y1 x y2
          = (forRange (min y1 y2) (max y1 y2 + 1)).map (fun j => (x, j))
      ∧ ∀ (e : ENGINE) (c : Nat),
          ENGINE_line e x1 y x2 y c = plot e c (ENGINE_line_calls x1 y x2 y)
            ∧ ENGINE_line e x y1 x y2 c = plot e c (ENGINE_line_calls x y1 x y2) := by
  refine ⟨⟨?_, ?_⟩, ⟨?_, ?_⟩, ?_, ENGINE_line_calls_horizontal x1 x2 y,
    ENGINE_line_calls_vertical x y1 y2, ?_⟩
  · rintro ⟨i, j⟩
    rw [ENGINE_line_calls_horizontal, mem_map_row]
    constructor
    · rintro ⟨h1, h2, h3⟩
      exact ⟨h1, h2, by omega⟩
    · rintro ⟨h1, h2, h3⟩
      exact ⟨h1, h2, by omega⟩
  · rw [ENGINE_line_calls_horizontal]
    exact nodup_map_row _ _ _
  · rintro ⟨i, j⟩
    rw [ENGINE_line_calls_vertical, mem_map_col]
    constructor
    · rintro ⟨h1, h2, h3⟩
      exact ⟨h1, h2, by omega⟩
    · rintro ⟨h1, h2, h3⟩
      exact ⟨h1, h2, by omega⟩
  · rw [ENGINE_line_calls_vertical]
    exact nodup_map_col _ _ _
  · rw [ENGINE_line_calls_vertical, min_self, max_self, forRange_cons (by omega),
      forRange_of_le le_rfl]
    rfl
  · intro e c
    exact ⟨ENGINE_line_eq_plot _ _ _ _ _ _, ENGINE_line_eq_plot _ _ _ _ _ _⟩

/-- C19: `ENGINE_line` is symmetric in its endpoints: for every canvas, all integer
endpoints and every colour, opaque or translucent, the canvas after
`ENGINE_line(x1, y1, x2, y2, c)` equals the canvas after `ENGINE_line(x2, y2, x1, y1, c)`;
the two make the same calls in the same order. -/
theorem ENGINE_line_symmetric (e : ENGINE) (x1 y1 x2 y2 : Int) (c : Nat) :
    ENGINE_line e x1 y1 x2 y2 c = ENGINE_line e x2 y2 x1 y1 c
      ∧ ENGINE_line_calls x1 y1 x2 y2 = ENGINE_line_calls x2 y2 x1 y1 := by
  refine ⟨?_, ENGINE_line_calls_comm x1 y1 x2 y2⟩
  rw [ENGINE_line_eq_plot, ENGINE_line_eq_plot, ENGINE_line_calls_comm]

/-- C15: on a well-formed canvas, for all integers `x, y`, every `w >= 1` and `h >= 1`
and every opaque colour `c`, after `ENGINE_rect` a canvas cell holds `c` if it lies on
the perimeter of the rectangle `[x, x+w-1] x [y, y+h-1]` and keeps its value otherwise,
be it interior or exterior; the calls made are exactly the perimeter cells, and the
dimensions are unchanged. -/
theorem ENGINE_rect_perimeter (e : ENGINE) (hwf : e.wellFormed) (x y w h : Int)
    (hw : 1 ≤ w) (hh : 1 ≤ h) (c : Nat) (hc : alphaOf c = 255) :
    (ENGINE_rect e x y w h c).width = e.width
      ∧ (ENGINE_rect e x y w h c).height = e.height
      ∧ (ENGINE_rect e x y w h c).pixels.length = e.pixels.length
      ∧ (∀ i j : Int, (i, j) ∈ ENGINE_rect_calls x y w h ↔
          (x ≤ i ∧ i ≤ x + w - 1 ∧ y ≤ j ∧ j ≤ y + h - 1)
            ∧ (i = x ∨ i = x + w - 1 ∨ j = y ∨ j = y + h - 1))
      ∧ ∀ i j : Int, 0 ≤ i → i < e.width → 0 ≤ j → j < e.height →
          (ENGINE_rect e x y w h c).cell i j =
            if (x ≤ i ∧ i ≤ x + w - 1 ∧ y ≤ j ∧ j ≤ y + h - 1)
                ∧ (i = x ∨ i = x + w - 1 ∨ j = y ∨ j = y + h - 1) then c
            else e.cell i j := by
  rw [ENGINE_rect_eq_plot]
  refine ⟨plot_width _ _ _, plot_height _ _ _, plot_length _ _ _,
    fun i j => mem_ENGINE_rect_calls x y w h i j hw hh, ?_⟩
  intro i j hi0 hi hj0 hj
  rw [plot_cell_overwrite e hwf c hc _ i j hi0 hi hj0 hj]
  simp only [mem_ENGINE_rect_calls x y w h i j hw hh]

/-- Witness for C15: a 3x3 outline on a 4x4 canvas leaves the centre cell alone. -/
theorem ENGINE_rect_perimeter_witness :
    (ENGINE_rect ⟨4, 4, List.replicate 16 0⟩ 0 0 3 3 0xFFFFFFFF).cell 1 1 = 0
      ∧ (ENGINE_rect ⟨4, 4, List.replicate 16 0⟩ 0 0 3 3 0xFFFFFFFF).cell 2 1 = 0xFFFFFFFF :=
  have h := ENGINE_rect_perimeter ⟨4, 4, List.replicate 16 0⟩ (by decide) 0 0 3 3
    (by decide) (by decide) 0xFFFFFFFF (by decide)
  ⟨(h.2.2.2.2 1 1 (by decide) (by decide) (by decide) (by decide)).trans (by decide),
   (h.2.2.2.2 2 1 (by decide) (by decide) (by decide) (by decide)).trans (by decide)⟩

/-! ## Claim on `ENGINE_print` -/

/-- C12: for every font table, every text of character codes below 128, every origin
`(x, y)` and colour, let `k*` be the index of the first character whose glyph has 10 as
first row byte, or the length of the text if there is none.  The cells `ENGINE_print`
passes to `ENGINE_pset` are exactly the cells `(x + 8k + i, y + j)` with `k < k*`,
`i, j < 8` and bit `i` of row `j` of the glyph of the `k`-th character set; so the
`k`-th character is drawn `8k` pixels to the right of the first and nothing is drawn
for a character at index `k*` or later.  The canvas after `ENGINE_print` is the canvas
after these calls, made character by character, row by row. -/
theorem ENGINE_print_cells (e : ENGINE) (font : Nat → Nat → Nat) (text : List Nat)
    (h128 : ∀ ch ∈ text, ch < 128) (x y : Int) (c : Nat) :
    ENGINE_print e font text x y c = plot e c (ENGINE_print_calls font text x y)
      ∧ ENGINE_print_calls font text x y =
          (List.range (printStop font text)).flatMap
            (fun k => ENGINE_print_glyph_calls (glyphRow font (text.getD k 0)) x y
              (8 * (k : Int)))
      ∧ (∀ p : Int × Int, p ∈ ENGINE_print_calls font text x y ↔
          ∃ k i j : Nat, k < printStop font text ∧ i < 8 ∧ j < 8
            ∧ (glyphRow font (text.getD k 0) j).testBit i = true
            ∧ p = (x + 8 * (k : Int) + (i : Int), y + (j : Int)))
      ∧ printStop font text ≤ text.length
      ∧ (∀ k : Nat, k < printStop font text → glyphRow font (text.getD k 0) 0 ≠ 10)
      ∧ (printStop font text < text.length →
          glyphRow font (text.getD (printStop font text) 0) 0 = 10) := by
  have hcalls : ENGINE_print_calls font text x y =
      (List.range (printStop font text)).flatMap
        (fun k => ENGINE_print_glyph_calls (glyphRow font (text.getD k 0)) x y
          (8 * (k : Int))) := by
    unfold ENGINE_print_calls
    rw [ENGINE_print_callsLoop_eq font x y text h128 0]
    simp only [zero_add]
  have hle : printStop font text ≤ text.length := List.findIdx_le_length _
  refine ⟨ENGINE_print_eq_plot e font text x y c, hcalls, ?_, hle, ?_, ?_⟩
  · intro p
    rw [hcalls]
    simp only [List.mem_flatMap, List.mem_range, mem_ENGINE_print_glyph_calls]
    constructor
    · rintro ⟨k, hk, i, j, hi, hj, hb, rfl⟩
      exact ⟨k, i, j, hk, hi, hj, hb, rfl⟩
    · rintro ⟨k, i, j, hk, hi, hj, hb, rfl⟩
      exact ⟨k, hk, i, j, hi, hj, hb, rfl⟩
  · intro k hk
    have hlt : k < text.length := lt_of_lt_of_le hk hle
    have h := List.not_of_lt_findIdx hk
    rw [List.getD_eq_getElem?_getD, List.getElem?_eq_getElem hlt]
    simpa using h
  · intro hlt
    have h := @List.findIdx_getElem _ (fun ch => decide (glyphRow font ch 0 = 10)) text hlt
    rw [List.getD_eq_getElem?_getD, List.getElem?_eq_getElem hlt]
    simpa using h

/-- Witness for C12: the text "AB" with a font in which every glyph is one full top
row; the second character is drawn from column 8 on. -/
theorem ENGINE_print_cells_witness :
    ENGINE_print_calls (fun _ j => if j = 0 then 0x81 else 0) [65, 66] 0 0 =
      (List.range (printStop (fun _ j => if j = 0 then 0x81 else 0) [65, 66])).flatMap
        (fun k => ENGINE_print_glyph_calls
          (glyphRow (fun _ j => if j = 0 then 0x81 else 0) ([65, 66].getD k 0)) 0 0
          (8 * (k : Int))) :=
  (ENGINE_print_cells ⟨16, 8, List.replicate 128 0⟩ (fun _ j => if j = 0 then 0x81 else 0)
    [65, 66] (by decide) 0 0 0xFFFFFFFF).2.1

/-! ## Claim on `ENGINE_takeScreenshot` -/

/-- C14, as stated, fails: a canvas of 65536 x 65536 cells has width and height below
`2^31` and a buffer of `width * height` cells, but `imageSize`, a product of two
`uint32_t`, is zero, so the image has no cell at all. -/
theorem ENGINE_takeScreenshot_size_wraps :
    ENGINE.wellFormed ⟨65536, 65536, List.replicate (65536 * 65536) 0⟩
      ∧ (ENGINE_takeScreenshot ⟨65536, 65536, List.replicate (65536 * 65536) 0⟩).2.length = 0
      ∧ (ENGINE_takeScreenshot ⟨65536, 65536, List.replicate (65536 * 65536) 0⟩).2.length
          ≠ 65536 * 65536 := by
  have hlen : (ENGINE_takeScreenshot ⟨65536, 65536, List.replicate (65536 * 65536) 0⟩).2.length
      = 0 := by
    unfold ENGINE_takeScreenshot
    simp only [List.length_map, List.length_range]
    decide
  refine ⟨⟨by decide, by decide, List.length_replicate _ _⟩, hlen, ?_⟩
  rw [hlen]
  decide

/-- C14, amended: for every well-formed canvas of fewer than `2^32` cells,
`ENGINE_takeScreenshot` leaves the engine unchanged and produces an image of exactly
`width * height` cells; cell `i` of the image is
`(A << 24) | (B << 16) | (G << 8) | R` for the channels `A, R, G, B` of canvas cell `i`,
so alpha and green are kept, red and blue are exchanged, and the little-endian bytes
of the image cell are `R, G, B, A`. -/
theorem ENGINE_takeScreenshot_swaps (e : ENGINE) (hwf : e.wellFormed)
    (hsize : e.width * e.height < 2 ^ 32) :
    (ENGINE_takeScreenshot e).1 = e
      ∧ (ENGINE_takeScreenshot e).2.length = e.width * e.height
      ∧ ∀ (i : Nat) (c : Nat), e.pixels[i]? = some c →
          (ENGINE_takeScreenshot e).2[i]? =
              some ((alphaOf c <<< 24) ||| (blueOf c <<< 16) ||| (greenOf c <<< 8) ||| redOf c)
            ∧ ((alphaOf c <<< 24) ||| (blueOf c <<< 16) ||| (greenOf c <<< 8) ||| redOf c)
                % 256 = redOf c
            ∧ ((alphaOf c <<< 24) ||| (blueOf c <<< 16) ||| (greenOf c <<< 8) ||| redOf c)
                / 2 ^ 8 % 256 = greenOf c
            ∧ ((alphaOf c <<< 24) ||| (blueOf c <<< 16) ||| (greenOf c <<< 8) ||| redOf c)
                / 2 ^ 16 % 256 = blueOf c
            ∧ ((alphaOf c <<< 24) ||| (blueOf c <<< 16) ||| (greenOf c <<< 8) ||| redOf c)
                / 2 ^ 24 = alphaOf c := by
  have hsz : toU32 (e.width * e.height) = e.width * e.height := Nat.mod_eq_of_lt hsize
  refine ⟨rfl, ?_, ?_⟩
  · unfold ENGINE_takeScreenshot
    simp only [List.length_map, List.length_range, hsz]
  · intro i c hi
    have hlt : i < e.width * e.height := by
      rw [← hwf.2.2]
      exact (List.getElem?_eq_some_iff.1 hi).1
    have ha := alphaOf_le c
    have hr := redOf_le c
    have hg := greenOf_le c
    have hb := blueOf_le c
    rw [pack_eq_sum hb hg hr]
    refine ⟨?_, by omega, by omega, by omega, by omega⟩
    unfold ENGINE_takeScreenshot
    simp only [hsz, List.getElem?_map, List.getElem?_range hlt, Option.map_some',
      List.getD_eq_getElem?_getD, hi, Option.getD_some, ENGINE_takeScreenshot_cell_eq,
      pack_eq_sum hb hg hr]

/-- Witness for the amended C14: a 2x1 canvas. -/
theorem ENGINE_takeScreenshot_swaps_witness :
    (ENGINE_takeScreenshot ⟨2, 1, [0xFF112233, 0x80AABBCC]⟩).2.length = 2 * 1 :=
  (ENGINE_takeScreenshot_swaps ⟨2, 1, [0xFF112233, 0x80AABBCC]⟩ (by decide) (by decide)).2.1

/-! ## Claim on the circle routines -/

/-- C16: for every centre `(x0, y0)`, every radius `r` and every opaque colour, whatever
the double-precision computations of the decision value give:
`ENGINE_circle_filled` follows the same `(x, y, d)` step sequence as `ENGINE_circle`; at
each step `ENGINE_circle` plots eight points and `ENGINE_circle_filled` draws the four
horizontal spans whose endpoints are these points, pair by pair; every cell passed to
`ENGINE_pset` by `ENGINE_circle` is passed by `ENGINE_circle_filled`, so on a
well-formed canvas every cell written by the former holds the colour after the latter;
and both loops end by their guard, after at most `r + 1` iterations for `r >= 0` and
none for `r < 0`. -/
theorem ENGINE_circle_filled_covers (D : CircleDecision) (e : ENGINE) (hwf : e.wellFormed)
    (x0 y0 r : Int) (c : Nat) (hc : alphaOf c = 255) :
    ENGINE_circle_filled_steps D (r + 1).toNat 0 r (D.start r)
        = ENGINE_circle_steps D (r + 1).toNat 0 r (D.start r)
      ∧ ENGINE_circle D e x0 y0 r c
          = plot e c ((ENGINE_circle_steps D (r + 1).toNat 0 r (D.start r)).flatMap
              (fun s => ENGINE_circle_points x0 y0 s.1 s.2.1))
      ∧ ENGINE_circle_filled D e x0 y0 r c
          = plot e c ((ENGINE_circle_steps D (r + 1).toNat 0 r (D.start r)).flatMap
              (fun s => ENGINE_circle_spans x0 y0 s.1 s.2.1))
      ∧ (∀ s ∈ ENGINE_circle_steps D (r + 1).toNat 0 r (D.start r), ∀ p : Int × Int,
          p ∈ ENGINE_circle_spans x0 y0 s.1 s.2.1 ↔
            (p.2 = y0 + s.2.1 ∧ x0 - s.1 ≤ p.1 ∧ p.1 ≤ x0 + s.1)
              ∨ (p.2 = y0 + s.1 ∧ x0 - s.2.1 ≤ p.1 ∧ p.1 ≤ x0 + s.2.1)
              ∨ (p.2 = y0 - s.2.1 ∧ x0 - s.1 ≤ p.1 ∧ p.1 ≤ x0 + s.1)
              ∨ (p.2 = y0 - s.1 ∧ x0 - s.2.1 ≤ p.1 ∧ p.1 ≤ x0 + s.2.1))
      ∧ (∀ p ∈ ENGINE_circle_calls D x0 y0 r, p ∈ ENGINE_circle_filled_calls D x0 y0 r)
      ∧ (∀ i j : Int, 0 ≤ i → i < e.width → 0 ≤ j → j < e.height →
          ((i, j) ∈ ENGINE_circle_calls D x0 y0 r →
            (ENGINE_circle D e x0 y0 r c).cell i j = c
              ∧ (ENGINE_circle_filled D e x0 y0 r c).cell i j = c)
          ∧ ((i, j) ∉ ENGINE_circle_calls D x0 y0 r →
            (ENGINE_circle D e x0 y0 r c).cell i j = e.cell i j))
      ∧ (ENGINE_circle_steps D (r + 1).toNat 0 r (D.start r)).length ≤ (r + 1).toNat
      ∧ (r < 0 → ENGINE_circle_steps D (r + 1).toNat 0 r (D.start r) = [])
      ∧ ∀ n : Nat, (r + 1).toNat ≤ n →
          ENGINE_circle_loop D x0 y0 c n e 0 r (D.start r) = ENGINE_circle D e x0 y0 r c
            ∧ ENGINE_circle_filled_loop D x0 y0 c n e 0 r (D.start r)
                = ENGINE_circle_filled D e x0 y0 r c := by
  refine ⟨(ENGINE_circle_steps_eq_filled D _ _ _ _).symm, ENGINE_circle_eq_plot D e x0 y0 r c,
    ?_, ?_, ENGINE_circle_calls_subset D x0 y0 r, ?_, ENGINE_circle_steps_length D _ _ _ _,
    ?_, ?_⟩
  · rw [ENGINE_circle_filled_eq_plot, ENGINE_circle_filled_calls,
      ← ENGINE_circle_steps_eq_filled]
  · intro s hs p
    have hb := ENGINE_circle_steps_bounds D _ _ _ _ s hs
    exact mem_ENGINE_circle_spans x0 y0 s.1 s.2.1 hb.1 (by omega) p
  · intro i j hi0 hi hj0 hj
    rw [ENGINE_circle_eq_plot, ENGINE_circle_filled_eq_plot,
      plot_cell_overwrite e hwf c hc _ i j hi0 hi hj0 hj,
      plot_cell_overwrite e hwf c hc _ i j hi0 hi hj0 hj]
    constructor
    · intro hmem
      rw [if_pos hmem, if_pos (ENGINE_circle_calls_subset D x0 y0 r _ hmem)]
      exact ⟨rfl, rfl⟩
    · intro hnot
      rw [if_neg hnot]
  · intro hr
    have h0 : (r + 1).toNat = 0 := by omega
    rw [h0]
    rfl
  · intro n hn
    constructor
    · rw [ENGINE_circle_loop_eq_plot, ENGINE_circle_eq_plot, ENGINE_circle_calls,
        ENGINE_circle_steps_fuel D n (r + 1).toNat 0 r _ (by omega) (by omega)]
    · rw [ENGINE_circle_filled_loop_eq_plot, ENGINE_circle_filled_eq_plot,
        ENGINE_circle_filled_calls, ← ENGINE_circle_steps_eq_filled,
        ← ENGINE_circle_steps_eq_filled,
        ENGINE_circle_steps_fuel D n (r + 1).toNat 0 r _ (by omega) (by omega)]

/-- Witness for C16: radius 2 at the centre of a 5x5 canvas, with the decision value
computed with 3 in place of the constant. -/
theorem ENGINE_circle_filled_covers_witness :
    ENGINE_circle_filled_steps
        ⟨fun r => 3 - 2 * r, fun d x => d + 3 * x + 6, fun d x y => d + 3 * (x - y) + 9⟩
        ((2 : Int) + 1).toNat 0 2 (3 - 2 * 2)
      = ENGINE_circle_steps
        ⟨fun r => 3 - 2 * r, fun d x => d + 3 * x + 6, fun d x y => d + 3 * (x - y) + 9⟩
        ((2 : Int) + 1).toNat 0 2 (3 - 2 * 2) :=
  (ENGINE_circle_filled_covers
    ⟨fun r => 3 - 2 * r, fun d x => d + 3 * x + 6, fun d x y => d + 3 * (x - y) + 9⟩
    ⟨5, 5, List.replicate 25 0⟩ (by decide) 2 2 2 0xFFFFFFFF (by decide)).1

/-! ## Claims on the ellipse routines -/

set_option maxRecDepth 100000 in
/-- C13, the code at a failing input: for the corners `(4, 0)` and `(0, 4)`
`ENGINE_ellipsefill` uses `rx = -2` and the centre `(-2, 2)`, where `ENGINE_ellipse`
uses `rx = 2` and the centre `(2, 2)`, as both do for the corners `(0, 0)`, `(4, 4)`
of the same box; on a 5x5 canvas of zero cells the filled ellipse of the corners
`(4, 0)`, `(0, 4)` leaves the centre cell `(2, 2)` at zero, while that of the corners
`(0, 0)`, `(4, 4)` sets it to the colour. -/
theorem ENGINE_ellipsefill_reversed_corners :
    ENGINE_ellipsefill_radii 4 0 0 4 = (-2, 2, -2, 2)
      ∧ ENGINE_ellipse_radii 4 0 0 4 = (2, 2, 2, 2)
      ∧ ENGINE_ellipsefill_radii 0 0 4 4 = (2, 2, 2, 2)
      ∧ (ENGINE_ellipsefill ⟨5, 5, List.replicate 25 0⟩ 4 0 0 4 0xFFFFFFFF).cell 2 2 = 0
      ∧ (ENGINE_ellipsefill ⟨5, 5, List.replicate 25 0⟩ 0 0 4 4 0xFFFFFFFF).cell 2 2
          = 0xFFFFFFFF := by
  decide

set_option maxRecDepth 100000 in
/-- C17, the code at a failing input: on a 3x3 canvas of zero cells and with opaque
white, `ENGINE_ellipse(0, 0, 2, 2)` writes the cells `(1, 0)` and `(1, 2)`, its two
initial points, and `ENGINE_ellipsefill(0, 0, 2, 2)` leaves both at zero; likewise for
the box `(0, 0)-(2, 10)` on a 3x11 canvas and the cells `(1, 0)` and `(1, 10)`. -/
theorem ENGINE_ellipsefill_misses_poles :
    (ENGINE_ellipse ⟨3, 3, List.replicate 9 0⟩ 0 0 2 2 0xFFFFFFFF).cell 1 0 = 0xFFFFFFFF
      ∧ (ENGINE_ellipsefill ⟨3, 3, List.replicate 9 0⟩ 0 0 2 2 0xFFFFFFFF).cell 1 0 = 0
      ∧ (ENGINE_ellipse ⟨3, 3, List.replicate 9 0⟩ 0 0 2 2 0xFFFFFFFF).cell 1 2 = 0xFFFFFFFF
      ∧ (ENGINE_ellipsefill ⟨3, 3, List.replicate 9 0⟩ 0 0 2 2 0xFFFFFFFF).cell 1 2 = 0
      ∧ (ENGINE_ellipse ⟨3, 11, List.replicate 33 0⟩ 0 0 2 10 0xFFFFFFFF).cell 1 0
          = 0xFFFFFFFF
      ∧ (ENGINE_ellipsefill ⟨3, 11, List.replicate 33 0⟩ 0 0 2 10 0xFFFFFFFF).cell 1 0 = 0
      ∧ (ENGINE_ellipse ⟨3, 11, List.replicate 33 0⟩ 0 0 2 10 0xFFFFFFFF).cell 1 10
          = 0xFFFFFFFF
      ∧ (ENGINE_ellipsefill ⟨3, 11, List.replicate 33 0⟩ 0 0 2 10 0xFFFFFFFF).cell 1 10
          = 0 := by
  decide

end Dome
